import Mathlib

/-!
Verification of the UltraTechDetector (techdetect) detection engine against its
natural-language specification.

The Go sources are shallowly embedded: Go maps decoded from JSON become
association lists kept in insertion order (Go's random map-iteration order is
determinized to list order), `interface{}` values become the `JVal` sum type,
pointers shared between maps become explicit heap indices where aliasing is
observable (the browser augmentation stage), and the HTTP client becomes a
state-threaded oracle `doReq : σ → GoRequest → Except String HttpResponse × σ`.
The regexp library is an oracle `RegexEngine : String → String → List String`
returning the submatch list (`[]` both for "no match" and "compile error",
which the Go code treats identically). Strings are treated as ASCII: Go's
byte indices coincide with character indices and `strings.EqualFold`
coincides with lower-casing.
-/

deriving instance DecidableEq for Except

namespace TechDetect

/-- Dynamic JSON-decoded value (Go `interface{}`), as consumed by the query
evaluator. Objects keep their fields in a fixed list order. -/
inductive JVal where
  | str (s : String)
  | bool (b : Bool)
  | num (n : Int)
  | arr (elems : List JVal)
  | obj (fields : List (String × JVal))

/-- Go `types.go`: `Technology` — a detected technology (name + version). -/
structure Technology where
  name : String
  version : String
deriving Repr, DecidableEq

/-- Go `types.go`: `RequestConfig` — optional request override. The `Body`
field is carried but (like in `makeRequest`, which never reads it) never
serialized into a request. -/
structure RequestConfig where
  method : String
  headers : List (String × String)
  body : JVal

/-- Go `types.go`: `PathProbe` — an HTTP detection probe. `detect` is the
MongoDB-style query (Go `map[string]interface{}`). -/
structure PathProbe where
  path : String
  request : Option RequestConfig
  detect : List (String × JVal)
  extractVersion : List (List (String × String))

/-- Go `types.go`: `BrowserProbe` — a browser (augmentation) probe. -/
structure BrowserProbe where
  path : String
  detection : String
  version : String
deriving Repr, DecidableEq

/-- Go `types.go`: `Fingerprint` — detection rules of one technology.
Free-text metadata fields are omitted (never inspected by the core). -/
structure Fingerprint where
  cats : List Int
  implies : List String
  paths : List PathProbe
  browser : List BrowserProbe

/-- Go `types.go`: `DetectionContext` — data available for detection.
`headers` is the Go `map[string]string`, modeled as an association list in
insertion order. -/
structure DetectionContext where
  body : String
  headers : List (String × String)
  statusCode : Nat
deriving Repr, DecidableEq

/-- Regexp oracle standing for Go's `regexp` package:
`re pattern value` is `FindStringSubmatch` of the compiled pattern on the
value, with `[]` representing both a failed compilation and a non-match
(the evaluator treats the two identically). -/
def RegexEngine : Type := String → String → List String

/-- Go `strings.EqualFold`, restricted to ASCII case folding. -/
def charLower (c : Char) : Char :=
  if 'A' ≤ c ∧ c ≤ 'Z' then Char.ofNat (c.toNat + 32) else c

/-- Go `strings.EqualFold` on strings (ASCII case folding). -/
def eqFold (a b : String) : Bool :=
  a.data.map charLower == b.data.map charLower

/-- Go `strings.Split` worker: scan left to right, cutting at each
non-overlapping occurrence of the (non-empty) separator. The fuel is for
structural termination; one element is consumed per step, so
`length + 1` fuel always suffices. -/
def splitOnFuel (sep : List Char) : Nat → List Char → List Char →
    List (List Char)
  | 0, l, cur => [cur.reverse ++ l]
  | fuel + 1, l, cur =>
    match l with
    | [] => [cur.reverse]
    | c :: t =>
      if sep.isPrefixOf (c :: t) then
        cur.reverse :: splitOnFuel sep fuel (List.drop (sep.length - 1) t) []
      else splitOnFuel sep fuel t (c :: cur)

/-- Go `strings.Split` (with a non-empty separator, the only use in the
source). -/
def goSplit (s sep : String) : List String :=
  (splitOnFuel sep.data (s.data.length + 1) s.data []).map String.mk

/-- Go `strings.Join`. -/
def joinWith (sep : String) (l : List String) : String :=
  match l with
  | [] => ""
  | [x] => x
  | x :: xs => x ++ sep ++ joinWith sep xs

/-- Go `strings.HasPrefix` (ASCII assumption, character-wise). -/
def goStartsWith (s sub : String) : Bool := sub.data.isPrefixOf s.data

/-- Go `strings.HasSuffix`. -/
def goEndsWith (s sub : String) : Bool := sub.data.isSuffixOf s.data

/-- Case-insensitive first-match lookup in an association list; returns `""`
when no key folds to `name`. This is the shape of the header scans in
`getFieldValue` and of `http.Header.Get` (Go's canonical-key lookup). -/
def lookupFold (hs : List (String × String)) (name : String) : String :=
  match hs with
  | [] => ""
  | (k, v) :: rest => if eqFold k name then v else lookupFold rest name

/-- Go `query.go`: `getFieldValue` — resolve a dot-notation field reference
against the context (`body`, or `headers.<name>` case-insensitively). -/
def getFieldValue (fieldPath : String) (ctx : DetectionContext) : String :=
  let parts := goSplit fieldPath "."
  if parts.headD "" = "body" then ctx.body
  else if parts.headD "" = "headers" ∧ parts.length > 1 then
    lookupFold ctx.headers (joinWith "." (parts.drop 1))
  else ""

/-- Go `query.go`: `evaluateRegex` — strip an embedded `\;version:` marker,
match, and on success return the first captured group as version when a
marker was present. -/
def evaluateRegex (re : RegexEngine) (fieldValue : String) (pattern : JVal) :
    Bool × String :=
  match pattern with
  | .str patternStr =>
    let parts := goSplit patternStr "\\;version:"
    let actualPattern := parts.headD ""
    let ms := re actualPattern fieldValue
    if ms.length = 0 then (false, "")
    else if parts.length > 1 ∧ ms.length > 1 then (true, ms.getD 1 "")
    else (true, "")
  | _ => (false, "")

/-- Go `query.go`: `evaluateEquals`. -/
def evaluateEquals (fieldValue : String) (operand : JVal) : Bool × String :=
  match operand with
  | .str expected => (fieldValue == expected, "")
  | _ => (false, "")

/-- Go `query.go`: `evaluateNotEquals`. -/
def evaluateNotEquals (fieldValue : String) (operand : JVal) : Bool × String :=
  match operand with
  | .str expected => (fieldValue != expected, "")
  | _ => (false, "")

/-- Go `query.go`: `evaluateExists` — `exists == shouldExist`. -/
def evaluateExists (fieldValue : String) (operand : JVal) : Bool × String :=
  match operand with
  | .bool shouldExist => ((fieldValue != "") == shouldExist, "")
  | _ => (false, "")

/-- Go `query.go`: `evaluateIn` — membership among the string elements. -/
def evaluateIn (fieldValue : String) (operand : JVal) : Bool × String :=
  match operand with
  | .arr values => (values.any fun v => match v with
      | .str s => fieldValue == s
      | _ => false, "")
  | _ => (false, "")

/-- Go `query.go`: `evaluateNotIn` — non-membership among the string
elements. -/
def evaluateNotIn (fieldValue : String) (operand : JVal) : Bool × String :=
  match operand with
  | .arr values => (!(values.any fun v => match v with
      | .str s => fieldValue == s
      | _ => false), "")
  | _ => (false, "")

/-- Go `query.go`: the operator-dispatch loop inside `evaluateField`: the
first recognized operator key decides; unrecognized keys are skipped; an
exhausted map yields a non-match. -/
def evalFieldOps (re : RegexEngine) (fieldValue : String) :
    List (String × JVal) → Bool × String
  | [] => (false, "")
  | (operator, operand) :: rest =>
    if operator = "$regex" then evaluateRegex re fieldValue operand
    else if operator = "$eq" then evaluateEquals fieldValue operand
    else if operator = "$ne" then evaluateNotEquals fieldValue operand
    else if operator = "$exists" then evaluateExists fieldValue operand
    else if operator = "$in" then evaluateIn fieldValue operand
    else if operator = "$nin" then evaluateNotIn fieldValue operand
    else evalFieldOps re fieldValue rest

/-- Go `query.go`: `evaluateField` — resolve the field, short-circuit to a
non-match when the resolved value is empty, otherwise dispatch on the
operator object. -/
def evaluateField (re : RegexEngine) (fieldPath : String) (condition : JVal)
    (ctx : DetectionContext) : Bool × String :=
  let fieldValue := getFieldValue fieldPath ctx
  if fieldValue = "" then (false, "")
  else match condition with
    | .obj condMap => evalFieldOps re fieldValue condMap
    | _ => (false, "")

mutual

/-- Go `query.go`: `evaluateQuery` — the first key of the query object
decides (every branch of the Go range loop returns); an empty object is a
non-match. -/
def evaluateQuery (re : RegexEngine) (query : List (String × JVal))
    (ctx : DetectionContext) : Bool × String :=
  match query with
  | [] => (false, "")
  | (key, value) :: _ =>
    if key = "$or" then evaluateOr re value ctx
    else if key = "$and" then evaluateAnd re value ctx
    else if key = "$not" then evaluateNot re value ctx
    else if key = "$nor" then evaluateNor re value ctx
    else evaluateField re key value ctx

/-- Go `query.go`: `evaluateOr` — non-array operands are a non-match. -/
def evaluateOr (re : RegexEngine) (value : JVal) (ctx : DetectionContext) :
    Bool × String :=
  match value with
  | .arr conditions => evalOrList re conditions ctx
  | _ => (false, "")

/-- Go `query.go`: the `$or` loop — first matching child wins (with its
version); non-object children are skipped. -/
def evalOrList (re : RegexEngine) (conds : List JVal) (ctx : DetectionContext) :
    Bool × String :=
  match conds with
  | [] => (false, "")
  | cond :: rest =>
    match cond with
    | .obj condMap =>
      match evaluateQuery re condMap ctx with
      | (true, version) => (true, version)
      | (false, _) => evalOrList re rest ctx
    | _ => evalOrList re rest ctx

/-- Go `query.go`: `evaluateAnd` — non-array operands are a non-match. -/
def evaluateAnd (re : RegexEngine) (value : JVal) (ctx : DetectionContext) :
    Bool × String :=
  match value with
  | .arr conditions => evalAndList re conditions ctx ""
  | _ => (false, "")

/-- Go `query.go`: the `$and` loop — fails on the first failing or
non-object child; the last non-empty child version wins. -/
def evalAndList (re : RegexEngine) (conds : List JVal) (ctx : DetectionContext)
    (version : String) : Bool × String :=
  match conds with
  | [] => (true, version)
  | cond :: rest =>
    match cond with
    | .obj condMap =>
      match evaluateQuery re condMap ctx with
      | (false, _) => (false, "")
      | (true, v) => evalAndList re rest ctx (if v ≠ "" then v else version)
    | _ => (false, "")

/-- Go `query.go`: `evaluateNot` — negates an object child, never yields a
version; non-object operands are a non-match. -/
def evaluateNot (re : RegexEngine) (value : JVal) (ctx : DetectionContext) :
    Bool × String :=
  match value with
  | .obj condMap => (!(evaluateQuery re condMap ctx).1, "")
  | _ => (false, "")

/-- Go `query.go`: `evaluateNor` — non-array operands are a non-match. -/
def evaluateNor (re : RegexEngine) (value : JVal) (ctx : DetectionContext) :
    Bool × String :=
  match value with
  | .arr conditions => evalNorList re conditions ctx
  | _ => (false, "")

/-- Go `query.go`: the `$nor` loop — any matching child refutes; non-object
children are skipped. -/
def evalNorList (re : RegexEngine) (conds : List JVal) (ctx : DetectionContext) :
    Bool × String :=
  match conds with
  | [] => (true, "")
  | cond :: rest =>
    match cond with
    | .obj condMap =>
      if (evaluateQuery re condMap ctx).1 then (false, "")
      else evalNorList re rest ctx
    | _ => evalNorList re rest ctx

end

/-- Go `query.go`: `Evaluate` — the public entry point. -/
def Evaluate (re : RegexEngine) (query : List (String × JVal))
    (ctx : DetectionContext) : Bool × String :=
  evaluateQuery re query ctx

/-- Go `query.go`: the inner field loop of `ExtractVersion` — first field
whose pattern captures at least one group supplies the version. -/
def extractFromRule (re : RegexEngine) (rule : List (String × String))
    (ctx : DetectionContext) : Option String :=
  match rule with
  | [] => none
  | (field, pattern) :: rest =>
    let fieldValue := getFieldValue field ctx
    if fieldValue = "" then extractFromRule re rest ctx
    else
      let ms := re pattern fieldValue
      if ms.length > 1 then some (ms.getD 1 "")
      else extractFromRule re rest ctx

/-- Go `query.go`: `ExtractVersion` — fallback version extraction, first
successful rule wins. -/
def ExtractVersion (re : RegexEngine) (rules : List (List (String × String)))
    (ctx : DetectionContext) : String :=
  match rules with
  | [] => ""
  | rule :: rest =>
    match extractFromRule re rule ctx with
    | some v => v
    | none => ExtractVersion re rest ctx


/-- Go `strings.Index` over characters (ASCII assumption): position of the
first occurrence of `needle`, or `-1`. -/
def indexOfFrom (hay needle : List Char) (i : Nat) : Option Nat :=
  match hay with
  | [] => if needle.isEmpty then some i else none
  | c :: t =>
    if needle.isPrefixOf (c :: t) then some i else indexOfFrom t needle (i + 1)

/-- Go `strings.Index` wrapper on strings. -/
def goIndex (s sub : String) : Int :=
  match indexOfFrom s.data sub.data 0 with
  | some i => (i : Int)
  | none => -1

/-- Go `strings.LastIndex(s, c)` for a single-character separator. -/
def lastIndexOfChar (s : String) (c : Char) : Int :=
  let rec go (l : List Char) (i : Nat) (acc : Int) : Int :=
    match l with
    | [] => acc
    | x :: t => go t (i + 1) (if x = c then (i : Int) else acc)
  go s.data 0 (-1)

/-- Character-index substring `s[a:b]` (ASCII assumption). -/
def goSlice (s : String) (a b : Nat) : String :=
  String.mk ((s.data.drop a).take (b - a))

/-- Character-index suffix `s[a:]` (ASCII assumption). -/
def goFrom (s : String) (a : Nat) : String :=
  String.mk (s.data.drop a)

/-- Go `strings.Contains`. -/
def containsStr (s sub : String) : Bool := goIndex s sub ≠ -1

/-- Go `strings.TrimSuffix(s, "/")` as used on base URLs. -/
def trimSuffixSlash (s : String) : String :=
  if goEndsWith s "/" then String.mk s.data.dropLast else s

/-- Go `http_detector.go`: the `map[string]string` produced by `parseURL`
(keys `scheme`, `host`, `port`), as a record. -/
structure URLParts where
  scheme : String
  host : String
  port : String
deriving Repr, DecidableEq

/-- Go `http_detector.go`: `parseURL` — extract scheme, host and port, with
default ports 443/80; errors when no `://` is present. -/
def parseURL (urlStr : String) : Except String URLParts :=
  let schemeEnd := goIndex urlStr "://"
  if schemeEnd = -1 then .error "invalid URL: no scheme"
  else
    let se := schemeEnd.toNat
    let scheme := goSlice urlStr 0 se
    let rest := goFrom urlStr (se + 3)
    let slashIdx := goIndex rest "/"
    let hostPort := if slashIdx = -1 then rest else goSlice rest 0 slashIdx.toNat
    let colonIdx := lastIndexOfChar hostPort ':'
    if colonIdx = -1 then
      .ok ⟨scheme, hostPort, if scheme = "https" then "443" else "80"⟩
    else
      .ok ⟨scheme, goSlice hostPort 0 colonIdx.toNat,
           goFrom hostPort (colonIdx.toNat + 1)⟩

/-- Go `http_detector.go`: `resolveURL` — resolve a redirect target against
the current URL (absolute, scheme-relative, absolute-path, or relative). -/
def resolveURL (base relative : String) : Except String String :=
  if goStartsWith relative "http://" ∨ goStartsWith relative "https://" then
    .ok relative
  else if goStartsWith relative "//" then
    match parseURL base with
    | .error e => .error e
    | .ok baseParts => .ok (baseParts.scheme ++ ":" ++ relative)
  else if goStartsWith relative "/" then
    let schemeEnd := goIndex base "://"
    if schemeEnd = -1 then .error "invalid base URL"
    else
      let se := schemeEnd.toNat
      let rest := goFrom base (se + 3)
      let slashIdx := goIndex rest "/"
      let basePart := if slashIdx = -1 then base
        else goSlice base 0 (se + 3 + slashIdx.toNat)
      .ok (basePart ++ relative)
  else if goEndsWith base "/" then .ok (base ++ relative)
  else .ok (base ++ "/" ++ relative)

/-- Go `http_detector.go`: `isSameDomain` — case-insensitive host equality
(ports and schemes may differ). -/
def isSameDomain (url1 url2 : URLParts) : Bool := eqFold url1.host url2.host

/-- Go `http_detector.go` constants. -/
def MaxRetries : Nat := 1

/-- Go `http_detector.go` constants. -/
def MaxRedirects : Nat := 3

/-- One HTTP response as delivered by the Go client (`client.Do` followed by
`io.ReadAll`): status code, headers (single-valued, in Go's canonical key
form, association-list order standing for map order), and the body. -/
structure HttpResponse where
  statusCode : Nat
  headers : List (String × String)
  body : String
deriving Repr, DecidableEq

/-- The outgoing request handed to the Go HTTP client: URL, method and the
custom headers set from the request override. `makeRequest` always sends a
nil body (its `body io.Reader` is never assigned), so no body field. -/
structure GoRequest where
  url : String
  method : String
  headers : List (String × String)
deriving Repr, DecidableEq

/-- The HTTP client as a state-threaded oracle: one `client.Do` call (with
`io.ReadAll` folded in) consumes a request, returns a response or a
request-level error, and advances the world `σ`. -/
def DoReq (σ : Type) : Type := σ → GoRequest → Except String HttpResponse × σ

/-- Exact-key presence test (`_, exists := allHeaders[k]`). -/
def hasKey (l : List (String × String)) (k : String) : Bool :=
  l.any fun p => p.1 == k

/-- Go `http_detector.go`: the header-accumulation loop of `makeRequest` —
keep the first occurrence of each (exact) header key across the chain. -/
def accumHeaders (acc : List (String × String)) (hs : List (String × String)) :
    List (String × String) :=
  match hs with
  | [] => acc
  | (k, v) :: rest =>
    accumHeaders (if hasKey acc k then acc else acc ++ [(k, v)]) rest

/-- The request `makeRequest` builds for one hop: method defaulted to `GET`,
headers from the override. -/
def mkGoReq (url : String) (reqConfig : Option RequestConfig) : GoRequest :=
  let method := match reqConfig with
    | some cfg => if cfg.method ≠ "" then cfg.method else "GET"
    | none => "GET"
  let hs := match reqConfig with
    | some cfg => cfg.headers
    | none => []
  ⟨url, method, hs⟩

/-- The context `makeRequest` returns once the chain stops: newline-joined
accumulated bodies, accumulated headers, and the constant status marker
`200`. -/
def finishRequest (allBodies : List String)
    (allHeaders : List (String × String)) : Except String DetectionContext :=
  .ok ⟨joinWith "\n" allBodies, allHeaders, 200⟩

/-- Go `http_detector.go`: the redirect loop of `makeRequest`.
`redirectsLeft` stands for `MaxRedirects - redirectCount`; the Go guard
`redirectCount >= MaxRedirects` is `redirectsLeft = 0`. Bodies are appended
only when non-empty; headers are first-occurrence-wins; a non-3xx status, a
missing `Location`, the redirect bound, an unparsable or cross-domain target
all stop the chain. -/
def makeRequestAux {σ : Type} (doReq : DoReq σ) (reqConfig : Option RequestConfig)
    (currentURL : String) (redirectsLeft : Nat) (allBodies : List String)
    (allHeaders : List (String × String)) (w : σ) :
    Except String DetectionContext × σ :=
  match doReq w (mkGoReq currentURL reqConfig) with
  | (.error e, w') => (.error e, w')
  | (.ok resp, w') =>
    let allHeaders := accumHeaders allHeaders resp.headers
    let allBodies := if resp.body ≠ "" then allBodies ++ [resp.body] else allBodies
    if 300 ≤ resp.statusCode ∧ resp.statusCode < 400 then
      let location := lookupFold resp.headers "Location"
      if location = "" then (finishRequest allBodies allHeaders, w')
      else match redirectsLeft with
        | 0 => (finishRequest allBodies allHeaders, w')
        | n + 1 =>
          match parseURL currentURL with
          | .error _ => (finishRequest allBodies allHeaders, w')
          | .ok currentParsed =>
            match resolveURL currentURL location with
            | .error _ => (finishRequest allBodies allHeaders, w')
            | .ok redirectURL =>
              match parseURL redirectURL with
              | .error _ => (finishRequest allBodies allHeaders, w')
              | .ok redirectParsed =>
                if isSameDomain currentParsed redirectParsed then
                  makeRequestAux doReq reqConfig redirectURL n allBodies allHeaders w'
                else (finishRequest allBodies allHeaders, w')
    else (finishRequest allBodies allHeaders, w')

/-- Go `http_detector.go`: `makeRequest` — manual redirect following with
accumulation, starting with the full redirect budget. -/
def makeRequest {σ : Type} (doReq : DoReq σ) (url : String)
    (reqConfig : Option RequestConfig) (w : σ) :
    Except String DetectionContext × σ :=
  makeRequestAux doReq reqConfig url MaxRedirects [] [] w

/-- Go `http_detector.go`: the retry loop of `requestWithRetry`.
`retriesLeft` counts the retries still allowed (initially `MaxRetries`);
the backoff sleep does not affect the modeled state. -/
def requestWithRetryAux {σ : Type} (doReq : DoReq σ) (url : String)
    (reqConfig : Option RequestConfig) (retriesLeft : Nat) (w : σ) :
    Except String DetectionContext × σ :=
  match makeRequest doReq url reqConfig w with
  | (.ok ctx, w') => (.ok ctx, w')
  | (.error e, w') =>
    match retriesLeft with
    | 0 => (.error ("failed after " ++ toString MaxRetries ++ " retries: " ++ e), w')
    | n + 1 => requestWithRetryAux doReq url reqConfig n w'

/-- Go `http_detector.go`: `requestWithRetry` — up to `MaxRetries` retries;
the final attempt's error is wrapped with the retry-count annotation. -/
def requestWithRetry {σ : Type} (doReq : DoReq σ) (url : String)
    (reqConfig : Option RequestConfig) (w : σ) :
    Except String DetectionContext × σ :=
  requestWithRetryAux doReq url reqConfig MaxRetries w

/-- Go `http_detector.go`: `PathClassification` — probes grouped under one
request path. `technologies` is the Go `map[string][]PathProbe` in insertion
order. -/
structure PathClassification where
  path : String
  requestConf : Option RequestConfig
  technologies : List (String × List PathProbe)

/-- Append `probe` to `techName`'s probe list (creating the entry at the end
as Go map assignment does on a missing key). -/
def addProbeToTechs (techs : List (String × List PathProbe)) (techName : String)
    (probe : PathProbe) : List (String × List PathProbe) :=
  match techs with
  | [] => [(techName, [probe])]
  | (t, ps) :: rest =>
    if t = techName then (t, ps ++ [probe]) :: rest
    else (t, ps) :: addProbeToTechs rest techName probe

/-- Go `http_detector.go`: the body of the `ClassifyByPath` loops — insert
one probe into the path map keyed by `probe.Path` (the request
configuration of a group is the one of the probe that created it). -/
def classifyInsert (pm : List PathClassification) (techName : String)
    (probe : PathProbe) : List PathClassification :=
  match pm with
  | [] => [⟨probe.path, probe.request, [(techName, [probe])]⟩]
  | pc :: rest =>
    if pc.path = probe.path then
      ⟨pc.path, pc.requestConf, addProbeToTechs pc.technologies techName probe⟩ :: rest
    else pc :: classifyInsert rest techName probe

/-- Go `http_detector.go`: `ClassifyByPath` — group all probes of all
fingerprints by their request path. -/
def ClassifyByPath (fps : List (String × Fingerprint)) :
    List PathClassification :=
  fps.foldl (fun pm tf => tf.2.paths.foldl (fun pm p => classifyInsert pm tf.1 p) pm) []

/-- Go map assignment `results[techName] = tech` on the results map. -/
def setResult (results : List (String × Technology)) (name : String)
    (tech : Technology) : List (String × Technology) :=
  match results with
  | [] => [(name, tech)]
  | (k, v) :: rest =>
    if k = name then (k, tech) :: rest
    else (k, v) :: setResult rest name tech

/-- Go map lookup on the results map. -/
def getResult (results : List (String × Technology)) (name : String) :
    Option Technology :=
  match results with
  | [] => none
  | (k, v) :: rest => if k = name then some v else getResult rest name

/-- Go `http_detector.go`: the per-technology probe loop of `DetectHTTP` —
first matching probe wins; a matching probe with no version falls back to
its extraction rules. -/
def detectTech (re : RegexEngine) (techName : String) (probes : List PathProbe)
    (ctx : DetectionContext) : Option Technology :=
  match probes with
  | [] => none
  | probe :: rest =>
    match Evaluate re probe.detect ctx with
    | (true, version) =>
      let version :=
        if version = "" ∧ probe.extractVersion.length > 0 then
          ExtractVersion re probe.extractVersion ctx
        else version
      some ⟨techName, version⟩
    | (false, _) => detectTech re techName rest ctx

/-- Go `http_detector.go`: the technology loop of `DetectHTTP` over one
fetched classification. -/
def applyClassification (re : RegexEngine)
    (techs : List (String × List PathProbe)) (ctx : DetectionContext)
    (results : List (String × Technology)) : List (String × Technology) :=
  match techs with
  | [] => results
  | (techName, probes) :: rest =>
    let results := match detectTech re techName probes ctx with
      | some tech => setResult results techName tech
      | none => results
    applyClassification re rest ctx results

/-- Go `http_detector.go`: the fatal-error loop of `DetectHTTP` — append
every classified path not already in `failedPaths`. -/
def markAllFailed (classifications : List PathClassification)
    (failedPaths : List String) : List String :=
  match classifications with
  | [] => failedPaths
  | pc :: rest =>
    markAllFailed rest
      (if failedPaths.contains pc.path then failedPaths
       else failedPaths ++ [pc.path])

/-- Go `http_detector.go`: the main path loop of `DetectHTTP`. A failed
fetch records the path; a fatal error ("no such host" / "network is
unreachable" in the error text) additionally marks every other classified
path failed and stops the loop. -/
def detectHTTPLoop {σ : Type} (doReq : DoReq σ) (re : RegexEngine)
    (baseURL : String) (allClassifications : List PathClassification)
    (remaining : List PathClassification)
    (results : List (String × Technology)) (failedPaths : List String)
    (w : σ) : (List (String × Technology) × List String) × σ :=
  match remaining with
  | [] => ((results, failedPaths), w)
  | classification :: rest =>
    let fullURL := trimSuffixSlash baseURL ++ classification.path
    match requestWithRetry doReq fullURL classification.requestConf w with
    | (.error e, w') =>
      let failedPaths := failedPaths ++ [classification.path]
      if containsStr e "no such host" ∨ containsStr e "network is unreachable" then
        ((results, markAllFailed allClassifications failedPaths), w')
      else
        detectHTTPLoop doReq re baseURL allClassifications rest results failedPaths w'
    | (.ok ctx, w') =>
      detectHTTPLoop doReq re baseURL allClassifications rest
        (applyClassification re classification.technologies ctx results)
        failedPaths w'

/-- Go `http_detector.go`: `DetectHTTP` — classify, fetch each classified
path once (subject to the fatal-error short-circuit), evaluate. -/
def DetectHTTP {σ : Type} (doReq : DoReq σ) (re : RegexEngine)
    (baseURL : String) (fps : List (String × Fingerprint)) (w : σ) :
    (List (String × Technology) × List String) × σ :=
  let classifications := ClassifyByPath fps
  detectHTTPLoop doReq re baseURL classifications classifications [] [] w



/-- Go map lookup on the fingerprint store. -/
def lookupFp (fps : List (String × Fingerprint)) (name : String) :
    Option Fingerprint :=
  match fps with
  | [] => none
  | (k, v) :: rest => if k = name then some v else lookupFp rest name

/-- Presence test on the results map. -/
def hasResult (results : List (String × Technology)) (name : String) : Bool :=
  results.any fun p => p.1 == name

/-- Go `detector.go`: the inner `Implies` loop of `addImpliedTechnologies` —
add each implied technology not yet present, with empty version. -/
def addImplied (results : List (String × Technology)) (implies : List String) :
    List (String × Technology) :=
  match implies with
  | [] => results
  | implied :: rest =>
    addImplied
      (if hasResult results implied then results
       else results ++ [(implied, ⟨implied, ""⟩)]) rest

/-- Go `detector.go`: one pass of `addImpliedTechnologies` over the listed
technology names (the keys snapshot of the results map). -/
def onePassAux (fps : List (String × Fingerprint)) (names : List String)
    (results : List (String × Technology)) : List (String × Technology) :=
  match names with
  | [] => results
  | techName :: rest =>
    let results := match lookupFp fps techName with
      | none => results
      | some fp => addImplied results fp.implies
    onePassAux fps rest results

/-- One full pass of the closure loop: iterate over the current keys. -/
def onePass (fps : List (String × Fingerprint))
    (results : List (String × Technology)) : List (String × Technology) :=
  onePassAux fps (results.map Prod.fst) results

/-- All names that can ever be added by the closure: the concatenation of
every fingerprint's `Implies` list. -/
def impliedUniverse (fps : List (String × Fingerprint)) : List String :=
  (fps.map fun tf => tf.2.implies).flatten

/-- Go `detector.go`: the `for changed` loop of `addImpliedTechnologies`.
Since passes only append, Go's `changed` flag is equivalent to a length
increase. The fuel bounds the number of passes; `addImpliedTechnologies`
supplies enough fuel for the fixed point to be reached. -/
def closureAux (fps : List (String × Fingerprint)) (fuel : Nat)
    (results : List (String × Technology)) : List (String × Technology) :=
  match fuel with
  | 0 => results
  | fuel + 1 =>
    let results' := onePass fps results
    if results'.length = results.length then results
    else closureAux fps fuel results'

/-- Go `detector.go`: `addImpliedTechnologies` — repeatedly add implied
technologies until a full pass adds nothing. -/
def addImpliedTechnologies (fps : List (String × Fingerprint))
    (results : List (String × Technology)) : List (String × Technology) :=
  closureAux fps ((impliedUniverse fps).length + 1) results

/-- Go `browser_detector.go`: `BrowserPathClassification` — browser probes
grouped by path. -/
structure BrowserPathClassification where
  path : String
  technologies : List (String × List BrowserProbe)

/-- Append a browser probe to a technology's probe list. -/
def addBrowserProbeToTechs (techs : List (String × List BrowserProbe))
    (techName : String) (probe : BrowserProbe) :
    List (String × List BrowserProbe) :=
  match techs with
  | [] => [(techName, [probe])]
  | (t, ps) :: rest =>
    if t = techName then (t, ps ++ [probe]) :: rest
    else (t, ps) :: addBrowserProbeToTechs rest techName probe

/-- Go `browser_detector.go`: insert one browser probe into the path map. -/
def classifyBrowserInsert (pm : List BrowserPathClassification)
    (techName : String) (probe : BrowserProbe) :
    List BrowserPathClassification :=
  match pm with
  | [] => [⟨probe.path, [(techName, [probe])]⟩]
  | pc :: rest =>
    if pc.path = probe.path then
      ⟨pc.path, addBrowserProbeToTechs pc.technologies techName probe⟩ :: rest
    else pc :: classifyBrowserInsert rest techName probe

/-- Go `browser_detector.go`: `ClassifyBrowserByPath`. -/
def ClassifyBrowserByPath (fps : List (String × Fingerprint)) :
    List BrowserPathClassification :=
  fps.foldl (fun pm tf => tf.2.browser.foldl (fun pm p => classifyBrowserInsert pm tf.1 p) pm) []

/-- Explicit heap of `Technology` cells. Go's `map[string]*Technology`
values are pointers; the heap makes the sharing between the HTTP result map
and the browser stage's shallow copy observable. A `Ref` is an index. -/
abbrev Heap : Type := List Technology

/-- A result map from name to heap reference (Go `map[string]*Technology`,
in insertion order). -/
abbrev RefMap : Type := List (String × Nat)

/-- Map lookup returning the reference (Go `results[techName]`, `nil` when
absent). -/
def getRef (results : RefMap) (name : String) : Option Nat :=
  match results with
  | [] => none
  | (k, r) :: rest => if k = name then some r else getRef rest name

/-- Dereference (never out of range in states built by the embedding). -/
def heapGet (heap : Heap) (r : Nat) : Technology :=
  heap.getD r ⟨"", ""⟩

/-- In-place version write `results[techName].Version = version` on the
shared cell. -/
def heapSetVersion (heap : Heap) (r : Nat) (version : String) : Heap :=
  heap.set r ⟨(heapGet heap r).name, version⟩

/-- Go `browser_detector.go`: `ShouldRunBrowserDetection` — run an
undetected technology's probe iff it can detect
(`HasDetectionCapability`), skip when a version is already known, and
otherwise run iff the probe can extract a version
(`HasVersionCapability`). -/
def ShouldRunBrowserDetection (techName : String) (results : RefMap)
    (heap : Heap) (probe : BrowserProbe) : Bool :=
  match getRef results techName with
  | none => probe.detection ≠ ""
  | some r =>
    if (heapGet heap r).version ≠ "" then false
    else probe.version ≠ ""

/-- The headless-browser collaborator as oracles: `nav url` is the success
of `chromedp.Navigate`, `wait url` of `chromedp.WaitReady("body")` on that
page, `evB script` / `evS script` the outcome of `chromedp.Evaluate` into a
bool / string (with `none` for a script error, which leaves the Go result
variable untouched). -/
structure BrowserOracle where
  nav : String → Bool
  wait : String → Bool
  evB : String → Option Bool
  evS : String → Option String

/-- Go `browser_detector.go`: the probe loop of `DetectBrowser` for one
technology — run the detection script, run the version script when
appropriate, then either allocate a fresh entry (new detection), upgrade an
empty version in place on the shared cell, or continue with the next probe;
`break` on any update. -/
def browserProbeLoop (oracle : BrowserOracle) (techName : String)
    (probes : List BrowserProbe) (results : RefMap) (heap : Heap) :
    RefMap × Heap :=
  match probes with
  | [] => (results, heap)
  | probe :: rest =>
    if ¬ ShouldRunBrowserDetection techName results heap probe then
      browserProbeLoop oracle techName rest results heap
    else
      let detected := if probe.detection ≠ "" then
          match oracle.evB ("(function()\x7b " ++ probe.detection ++ " \x7d)()") with
          | some r => r
          | none => false
        else false
      let version :=
        if detected ∨ ((getRef results techName).isSome ∧ probe.version ≠ "") then
          if probe.version ≠ "" then
            match oracle.evS ("(function()\x7b " ++ probe.version ++ " \x7d)()") with
            | some v => v
            | none => ""
          else ""
        else ""
      if detected then
        match getRef results techName with
        | none =>
          (results ++ [(techName, heap.length)], heap ++ [⟨techName, version⟩])
        | some r =>
          if version ≠ "" ∧ (heapGet heap r).version = "" then
            (results, heapSetVersion heap r version)
          else (results, heap)
      else
        match getRef results techName with
        | some r =>
          if version ≠ "" ∧ (heapGet heap r).version = "" then
            (results, heapSetVersion heap r version)
          else browserProbeLoop oracle techName rest results heap
        | none => browserProbeLoop oracle techName rest results heap

/-- Go `browser_detector.go`: the technology loop of `DetectBrowser` over
one classification. -/
def browserTechLoop (oracle : BrowserOracle)
    (techs : List (String × List BrowserProbe)) (results : RefMap)
    (heap : Heap) : RefMap × Heap :=
  match techs with
  | [] => (results, heap)
  | (techName, probes) :: rest =>
    let rh := browserProbeLoop oracle techName probes results heap
    browserTechLoop oracle rest rh.1 rh.2

/-- Go `browser_detector.go`: the classification loop of `DetectBrowser` —
skip a path whose navigation or readiness wait fails. -/
def browserClassLoop (oracle : BrowserOracle) (baseURL : String)
    (classes : List BrowserPathClassification) (results : RefMap)
    (heap : Heap) : RefMap × Heap :=
  match classes with
  | [] => (results, heap)
  | c :: rest =>
    let fullURL := trimSuffixSlash baseURL ++ c.path
    if ¬ oracle.nav fullURL then browserClassLoop oracle baseURL rest results heap
    else if ¬ oracle.wait fullURL then browserClassLoop oracle baseURL rest results heap
    else
      let rh := browserTechLoop oracle c.technologies results heap
      browserClassLoop oracle baseURL rest rh.1 rh.2

/-- Go `browser_detector.go`: `DetectBrowser` — starts from a shallow copy
of the HTTP result map (`results[k] = v` copies the name-to-pointer pairs:
the same references in the heap model) and runs the browser probes. Every
return in the Go function carries a `nil` error: the stage as written never
reports failure. -/
def DetectBrowser (oracle : BrowserOracle) (baseURL : String)
    (fps : List (String × Fingerprint)) (httpResults : RefMap) (heap : Heap) :
    RefMap × Heap :=
  let results := httpResults
  let classes := ClassifyBrowserByPath fps
  if classes.length = 0 then (results, heap)
  else browserClassLoop oracle baseURL classes results heap

/-- Read one technology (name and version) visible through a result map and
a heap — what a consumer of the Go `map[string]*Technology` sees. -/
def viewTech (results : RefMap) (heap : Heap) (name : String) :
    Option Technology :=
  match getRef results name with
  | none => none
  | some r => some (heapGet heap r)



/-- Case-insensitive presence test on a header list. -/
def hasFoldKey (hs : List (String × String)) (name : String) : Bool :=
  hs.any fun p => eqFold p.1 name

/-- Spec-side description of redirect-chain header accumulation ("headers
keep the first-seen value per case-insensitive name"): the value of `name`
in the earliest hop that carries it. Stated from the spec's words, to be
compared with what `makeRequest` accumulates. -/
def firstHopHeader (hops : List (List (String × String))) (name : String) :
    String :=
  match hops with
  | [] => ""
  | hs :: rest =>
    if hasFoldKey hs name then lookupFold hs name else firstHopHeader rest name

/-- A regex oracle that matches nothing (used in concrete scenarios whose
probes carry no patterns). -/
def re0 : RegexEngine := fun _ _ => []

/-- A context with a non-empty body and no headers (concrete input for the
absent-field scenarios). -/
def ctx0 : DetectionContext := ⟨"some body", [], 200⟩

/-- A scripted HTTP client: the world is the list of responses still to be
served, one per `client.Do` call, regardless of the request. -/
def scriptDo : DoReq (List (Except String HttpResponse)) :=
  fun w _ =>
    match w with
    | [] => (.error "script exhausted", [])
    | r :: rest => (r, rest)

/-- Rule store for the fatal-error scenario: two technologies, one probe
each, on distinct paths, with trivially false detection rules. -/
def fps2 : List (String × Fingerprint) :=
  [("T1", ⟨[], [], [⟨"/a", none, [], []⟩], []⟩),
   ("T2", ⟨[], [], [⟨"/b", none, [], []⟩], []⟩)]

/-- Script for the fatal-error scenario: the first path fetch succeeds, then
both attempts for the second path fail with a host-resolution error. -/
def script2 : List (Except String HttpResponse) :=
  [.ok ⟨200, [], "hello"⟩,
   .error "dial tcp: lookup t.example: no such host",
   .error "dial tcp: lookup t.example: no such host"]

/-- Probe with an explicit POST request override. -/
def probeA : PathProbe := ⟨"/", some ⟨"POST", [("X-Req", "1")], .str "payload"⟩, [], []⟩

/-- Probe on the same path with the default request shape. -/
def probeB : PathProbe := ⟨"/", none, [], []⟩

/-- Rule store with two probes sharing a path but differing in request
shape. -/
def fps3 : List (String × Fingerprint) :=
  [("A", ⟨[], [], [probeA], []⟩), ("B", ⟨[], [], [probeB], []⟩)]

/-- Rule store for the browser-stage scenario: one technology with one
version-extraction-only browser probe. -/
def fps4 : List (String × Fingerprint) :=
  [("T", ⟨[], [], [], [⟨"/", "", "return window.v"⟩]⟩)]

/-- Browser oracle whose version script yields "1.0". -/
def oracle4 : BrowserOracle :=
  ⟨fun _ => true, fun _ => true, fun _ => none, fun _ => some "1.0"⟩

/-- HTTP-stage result map holding `T` (detected, version unknown). -/
def httpResults4 : RefMap := [("T", 0)]

/-- Heap backing `httpResults4`. -/
def heap4 : Heap := [⟨"T", ""⟩]

/-- Script for the empty-body redirect hop: a 302 with an empty body
redirecting to a 200 with body "x". -/
def script5 : List (Except String HttpResponse) :=
  [.ok ⟨302, [("Location", "/q")], ""⟩, .ok ⟨200, [], "x"⟩]

/-- Script for a full two-hop same-host chain with duplicate headers. -/
def script5w : List (Except String HttpResponse) :=
  [.ok ⟨301, [("Location", "/two"), ("Server", "s0")], "b0"⟩,
   .ok ⟨302, [("Location", "/three"), ("Server", "s1"), ("X-P", "p")], "b1"⟩,
   .ok ⟨200, [("Server", "s2")], "b2"⟩]

/-- Script on which both request attempts fail. -/
def script6 : List (Except String HttpResponse) :=
  [.error "context deadline exceeded (attempt one)",
   .error "context deadline exceeded (attempt two)"]

/-- Script whose single response is a non-redirect error page. -/
def script6b : List (Except String HttpResponse) := [.ok ⟨404, [], "nope"⟩]

/-- Rule store with implications A→{B,C}, B→{C,D}, D→{A}. -/
def fps8 : List (String × Fingerprint) :=
  [("A", ⟨[], ["B", "C"], [], []⟩),
   ("B", ⟨[], ["C", "D"], [], []⟩),
   ("D", ⟨[], ["A"], [], []⟩)]

/-- Initial results for the closure scenario: A detected with a version. -/
def r8 : List (String × Technology) := [("A", ⟨"A", "1.0"⟩)]



/-- Frame relation between browser-stage states `(map, heap)`: the result
map only grows at its end, the heap only grows, and every surviving heap
cell keeps its name and either keeps its version or had the empty version
before (the only in-place mutation is an empty-to-non-empty version
upgrade). -/
def BrowserFrame (a b : RefMap × Heap) : Prop :=
  (∃ extra, b.1 = a.1 ++ extra) ∧
  a.2.length ≤ b.2.length ∧
  ∀ i, i < a.2.length →
    (heapGet b.2 i).name = (heapGet a.2 i).name ∧
    ((heapGet b.2 i).version = (heapGet a.2 i).version ∨
      (heapGet a.2 i).version = "")

/-! ### Theorems -/

/-- Resolving a field reference never reads the status marker. -/
theorem getFieldValue_status (fieldPath : String) (b : String)
    (hs : List (String × String)) (s1 s2 : Nat) :
    getFieldValue fieldPath ⟨b, hs, s1⟩ = getFieldValue fieldPath ⟨b, hs, s2⟩ := rfl

/-- Field conditions never read the status marker. -/
theorem evaluateField_status (re : RegexEngine) (fieldPath : String)
    (condition : JVal) (b : String) (hs : List (String × String)) (s1 s2 : Nat) :
    evaluateField re fieldPath condition ⟨b, hs, s1⟩
      = evaluateField re fieldPath condition ⟨b, hs, s2⟩ := rfl

mutual

theorem evaluateQuery_status (re : RegexEngine) (b : String)
    (hs : List (String × String)) (s1 s2 : Nat) :
    (q : List (String × JVal)) →
    evaluateQuery re q ⟨b, hs, s1⟩ = evaluateQuery re q ⟨b, hs, s2⟩
  | [] => rfl
  | (key, value) :: _ => by
    show (if key = "$or" then evaluateOr re value ⟨b, hs, s1⟩
      else if key = "$and" then evaluateAnd re value ⟨b, hs, s1⟩
      else if key = "$not" then evaluateNot re value ⟨b, hs, s1⟩
      else if key = "$nor" then evaluateNor re value ⟨b, hs, s1⟩
      else evaluateField re key value ⟨b, hs, s1⟩)
      = (if key = "$or" then evaluateOr re value ⟨b, hs, s2⟩
      else if key = "$and" then evaluateAnd re value ⟨b, hs, s2⟩
      else if key = "$not" then evaluateNot re value ⟨b, hs, s2⟩
      else if key = "$nor" then evaluateNor re value ⟨b, hs, s2⟩
      else evaluateField re key value ⟨b, hs, s2⟩)
    split_ifs
    · exact evaluateOr_status re b hs s1 s2 value
    · exact evaluateAnd_status re b hs s1 s2 value
    · exact evaluateNot_status re b hs s1 s2 value
    · exact evaluateNor_status re b hs s1 s2 value
    · exact evaluateField_status re key value b hs s1 s2

theorem evaluateOr_status (re : RegexEngine) (b : String)
    (hs : List (String × String)) (s1 s2 : Nat) :
    (v : JVal) → evaluateOr re v ⟨b, hs, s1⟩ = evaluateOr re v ⟨b, hs, s2⟩
  | .arr conds => evalOrList_status re b hs s1 s2 conds
  | .str _ => rfl
  | .bool _ => rfl
  | .num _ => rfl
  | .obj _ => rfl

theorem evalOrList_status (re : RegexEngine) (b : String)
    (hs : List (String × String)) (s1 s2 : Nat) :
    (conds : List JVal) →
    evalOrList re conds ⟨b, hs, s1⟩ = evalOrList re conds ⟨b, hs, s2⟩
  | [] => rfl
  | .obj condMap :: rest => by
    show (match evaluateQuery re condMap ⟨b, hs, s1⟩ with
      | (true, version) => (true, version)
      | (false, _) => evalOrList re rest ⟨b, hs, s1⟩)
      = (match evaluateQuery re condMap ⟨b, hs, s2⟩ with
      | (true, version) => (true, version)
      | (false, _) => evalOrList re rest ⟨b, hs, s2⟩)
    rw [evaluateQuery_status re b hs s1 s2 condMap]
    rcases evaluateQuery re condMap ⟨b, hs, s2⟩ with ⟨m, ver⟩
    cases m
    · exact evalOrList_status re b hs s1 s2 rest
    · rfl
  | .str _ :: rest => evalOrList_status re b hs s1 s2 rest
  | .bool _ :: rest => evalOrList_status re b hs s1 s2 rest
  | .num _ :: rest => evalOrList_status re b hs s1 s2 rest
  | .arr _ :: rest => evalOrList_status re b hs s1 s2 rest

theorem evaluateAnd_status (re : RegexEngine) (b : String)
    (hs : List (String × String)) (s1 s2 : Nat) :
    (v : JVal) → evaluateAnd re v ⟨b, hs, s1⟩ = evaluateAnd re v ⟨b, hs, s2⟩
  | .arr conds => evalAndList_status re b hs s1 s2 conds ""
  | .str _ => rfl
  | .bool _ => rfl
  | .num _ => rfl
  | .obj _ => rfl

theorem evalAndList_status (re : RegexEngine) (b : String)
    (hs : List (String × String)) (s1 s2 : Nat) :
    (conds : List JVal) → (version : String) →
    evalAndList re conds ⟨b, hs, s1⟩ version
      = evalAndList re conds ⟨b, hs, s2⟩ version
  | [], _ => rfl
  | .obj condMap :: rest, version => by
    show (match evaluateQuery re condMap ⟨b, hs, s1⟩ with
      | (false, _) => (false, "")
      | (true, v) => evalAndList re rest ⟨b, hs, s1⟩ (if v ≠ "" then v else version))
      = (match evaluateQuery re condMap ⟨b, hs, s2⟩ with
      | (false, _) => (false, "")
      | (true, v) => evalAndList re rest ⟨b, hs, s2⟩ (if v ≠ "" then v else version))
    rw [evaluateQuery_status re b hs s1 s2 condMap]
    rcases evaluateQuery re condMap ⟨b, hs, s2⟩ with ⟨m, ver⟩
    cases m
    · rfl
    · exact evalAndList_status re b hs s1 s2 rest _
  | .str _ :: _, _ => rfl
  | .bool _ :: _, _ => rfl
  | .num _ :: _, _ => rfl
  | .arr _ :: _, _ => rfl

theorem evaluateNot_status (re : RegexEngine) (b : String)
    (hs : List (String × String)) (s1 s2 : Nat) :
    (v : JVal) → evaluateNot re v ⟨b, hs, s1⟩ = evaluateNot re v ⟨b, hs, s2⟩
  | .obj condMap => by
    show (!(evaluateQuery re condMap ⟨b, hs, s1⟩).1, "")
      = (!(evaluateQuery re condMap ⟨b, hs, s2⟩).1, "")
    rw [evaluateQuery_status re b hs s1 s2 condMap]
  | .str _ => rfl
  | .bool _ => rfl
  | .num _ => rfl
  | .arr _ => rfl

theorem evaluateNor_status (re : RegexEngine) (b : String)
    (hs : List (String × String)) (s1 s2 : Nat) :
    (v : JVal) → evaluateNor re v ⟨b, hs, s1⟩ = evaluateNor re v ⟨b, hs, s2⟩
  | .arr conds => evalNorList_status re b hs s1 s2 conds
  | .str _ => rfl
  | .bool _ => rfl
  | .num _ => rfl
  | .obj _ => rfl

theorem evalNorList_status (re : RegexEngine) (b : String)
    (hs : List (String × String)) (s1 s2 : Nat) :
    (conds : List JVal) →
    evalNorList re conds ⟨b, hs, s1⟩ = evalNorList re conds ⟨b, hs, s2⟩
  | [] => rfl
  | .obj condMap :: rest => by
    show (if (evaluateQuery re condMap ⟨b, hs, s1⟩).1 then (false, "")
      else evalNorList re rest ⟨b, hs, s1⟩)
      = (if (evaluateQuery re condMap ⟨b, hs, s2⟩).1 then (false, "")
      else evalNorList re rest ⟨b, hs, s2⟩)
    rw [evaluateQuery_status re b hs s1 s2 condMap]
    split
    · rfl
    · exact evalNorList_status re b hs s1 s2 rest
  | .str _ :: rest => evalNorList_status re b hs s1 s2 rest
  | .bool _ :: rest => evalNorList_status re b hs s1 s2 rest
  | .num _ :: rest => evalNorList_status re b hs s1 s2 rest
  | .arr _ :: rest => evalNorList_status re b hs s1 s2 rest

end



/-- C7: for every context, `$and` applied to an empty child list is
vacuously true with empty version, and `$or` applied to an empty child list
is vacuously false. -/
theorem and_empty_true_or_empty_false (re : RegexEngine) (ctx : DetectionContext) :
    evaluateQuery re [("$and", JVal.arr [])] ctx = (true, "") ∧
    evaluateQuery re [("$or", JVal.arr [])] ctx = (false, "") := ⟨rfl, rfl⟩

/-- C9: for every rule expression `X` and every context, `$not($not(X))`
evaluates to the same matched boolean as `X` with an empty version, and
`$not` itself never yields a version on any operand. -/
theorem not_not_eval (re : RegexEngine) (X : List (String × JVal))
    (ctx : DetectionContext) :
    evaluateQuery re [("$not", JVal.obj [("$not", JVal.obj X)])] ctx
      = ((evaluateQuery re X ctx).1, "") ∧
    ∀ v : JVal, (evaluateNot re v ctx).2 = "" := by
  constructor
  · show (!!(evaluateQuery re X ctx).1, "") = ((evaluateQuery re X ctx).1, "")
    rw [Bool.not_not]
  · intro v; cases v <;> rfl

/-- C1: on a context with no headers, the field condition
`headers.x-powered-by: {$exists: false}` evaluates to matched=false — the
generic empty-value short-circuit fires before the operator is dispatched —
although `evaluateExists` itself would return true on an empty value with
operand false; on a non-empty field `$exists:false` is false as well, so
the operator can never match. -/
theorem exists_false_never_matches :
    evaluateField re0 "headers.x-powered-by"
      (JVal.obj [("$exists", JVal.bool false)]) ctx0 = (false, "") ∧
    evaluateExists "" (JVal.bool false) = (true, "") ∧
    evaluateField re0 "body"
      (JVal.obj [("$exists", JVal.bool false)]) ctx0 = (false, "") := by
  exact ⟨by decide, by decide, by decide⟩

/-- C2: in a run where the fetch of `/a` succeeds and the fetch of `/b`
then fails with a "no such host" error, the failed-paths list contains both
`/b` and the already-successfully-fetched `/a`: the fatal-error loop marks
every classified path failed, not only the remaining unfetched ones. -/
theorem fatal_error_marks_fetched_path_failed :
    requestWithRetry scriptDo "http://t.example/a" none script2
      = (.ok ⟨"hello", [], 200⟩, script2.drop 1) ∧
    DetectHTTP scriptDo re0 "http://t.example" fps2 script2
      = (([], ["/b", "/a"]), []) := by
  exact ⟨by decide, by decide⟩

/-- C3 counterexample: two probes (from technologies A and B) share the
path `/` but have different request shapes (an explicit POST override
versus the default), yet `ClassifyByPath` places them in the same single
group — the request shape is not part of the join key. -/
theorem same_path_different_shape_same_group :
    probeA.path = probeB.path ∧
    probeA.request.isSome = true ∧
    probeB.request.isSome = false ∧
    (ClassifyByPath fps3).length = 1 ∧
    ((ClassifyByPath fps3).headD ⟨"", none, []⟩).technologies.map Prod.fst
      = ["A", "B"] := by
  exact ⟨rfl, rfl, rfl, by decide, by decide⟩

/-- C5 counterexample: a same-host chain whose first hop (a 302) has an
empty body yields a context body `"x"`, not the newline-join `"\n" ++ "x"`
of every hop's body — empty hop bodies are skipped, not joined. -/
theorem empty_body_hop_not_joined :
    makeRequest scriptDo "http://a.test/p" none script5
      = (.ok ⟨"x", [("Location", "/q")], 200⟩, []) ∧
    joinWith "\n" ["", "x"] = "\n" ++ "x" ∧
    ("x" : String) ≠ "\n" ++ "x" := by
  exact ⟨by decide, by decide, by decide⟩

/-- C6: when both attempts of the retry wrapper fail, exactly two
`makeRequest` attempts are performed (the returned world is the world after
the second attempt) and the second attempt's error is returned wrapped with
the retry-count annotation; when the first or the second attempt succeeds,
its context is returned with no error and no further attempts are made. -/
theorem requestWithRetry_two_attempts {σ : Type} (doReq : DoReq σ)
    (url : String) (cfg : Option RequestConfig) (w0 w1 w2 : σ) :
    (∀ e0 e1, makeRequest doReq url cfg w0 = (.error e0, w1) →
      makeRequest doReq url cfg w1 = (.error e1, w2) →
      requestWithRetry doReq url cfg w0
        = (.error ("failed after 1 retries: " ++ e1), w2)) ∧
    (∀ ctx, makeRequest doReq url cfg w0 = (.ok ctx, w1) →
      requestWithRetry doReq url cfg w0 = (.ok ctx, w1)) ∧
    (∀ e0 ctx, makeRequest doReq url cfg w0 = (.error e0, w1) →
      makeRequest doReq url cfg w1 = (.ok ctx, w2) →
      requestWithRetry doReq url cfg w0 = (.ok ctx, w2)) := by
  refine ⟨fun e0 e1 h0 h1 => ?_, fun ctx h0 => ?_, fun e0 ctx h0 h1 => ?_⟩
  · show requestWithRetryAux doReq url cfg MaxRetries w0 = _
    rw [requestWithRetryAux, h0]
    show requestWithRetryAux doReq url cfg 0 w1 = _
    rw [requestWithRetryAux, h1]
    rfl
  · show requestWithRetryAux doReq url cfg MaxRetries w0 = _
    rw [requestWithRetryAux, h0]
  · show requestWithRetryAux doReq url cfg MaxRetries w0 = _
    rw [requestWithRetryAux, h0]
    show requestWithRetryAux doReq url cfg 0 w1 = _
    rw [requestWithRetryAux, h1]

/-- Witness for C6: on a script failing twice, the wrapper returns the
second attempt's error wrapped with the retry count, consuming exactly the
two scripted responses; on a script whose first response is a 404 page, the
context is returned after one attempt. -/
theorem requestWithRetry_two_attempts_witness :
    requestWithRetry scriptDo "http://a.test/p" none script6
      = (.error ("failed after 1 retries: context deadline exceeded (attempt two)"), []) ∧
    requestWithRetry scriptDo "http://a.test/p" none script6b
      = (.ok ⟨"nope", [], 200⟩, []) := by
  constructor
  · exact (requestWithRetry_two_attempts scriptDo "http://a.test/p" none
      script6 [.error "context deadline exceeded (attempt two)"] []).1
      "context deadline exceeded (attempt one)"
      "context deadline exceeded (attempt two)" (by decide) (by decide)
  · exact (requestWithRetry_two_attempts scriptDo "http://a.test/p" none
      script6b [] []).2.1 ⟨"nope", [], 200⟩ (by decide)



/-- Every successful exit of the redirect loop carries status marker 200
(every terminating branch returns through `finishRequest`). -/
theorem makeRequestAux_status {σ : Type} (doReq : DoReq σ)
    (cfg : Option RequestConfig) (n : Nat) :
    ∀ (url : String) (bodies : List String) (hdrs : List (String × String))
      (w : σ) (ctx : DetectionContext) (w2 : σ),
    makeRequestAux doReq cfg url n bodies hdrs w = (.ok ctx, w2) →
    ctx.statusCode = 200 := by
  induction n with
  | zero =>
    intro url bodies hdrs w ctx w2 h
    unfold makeRequestAux at h
    split at h
    · exact absurd h (by simp)
    · simp only [finishRequest] at h
      split at h
      · split at h
        · cases h; rfl
        · cases h; rfl
      · cases h; rfl
  | succ n ih =>
    intro url bodies hdrs w ctx w2 h
    unfold makeRequestAux at h
    split at h
    · exact absurd h (by simp)
    · simp only [finishRequest] at h
      split at h
      · split at h
        · cases h; rfl
        · split at h
          · cases h; rfl
          · split at h
            · cases h; rfl
            · split at h
              · cases h; rfl
              · split at h
                · exact ih _ _ _ _ _ _ h
                · cases h; rfl
      · cases h; rfl

/-- C10: every context returned by a successful fetch carries status marker
200 regardless of the actual response status codes in the chain, and the
query evaluator cannot read the status marker (evaluation coincides on
contexts that differ only in status), so no rule expression distinguishes
responses by status. -/
theorem successful_fetch_status_always_200 {σ : Type} (doReq : DoReq σ)
    (url : String) (cfg : Option RequestConfig) (w : σ)
    (ctx : DetectionContext) (w2 : σ)
    (h : makeRequest doReq url cfg w = (.ok ctx, w2)) :
    ctx.statusCode = 200 ∧
    ∀ (re : RegexEngine) (q : List (String × JVal)) (b : String)
      (hs : List (String × String)) (s1 s2 : Nat),
      evaluateQuery re q ⟨b, hs, s1⟩ = evaluateQuery re q ⟨b, hs, s2⟩ :=
  ⟨makeRequestAux_status doReq cfg MaxRedirects url [] [] w ctx w2 h,
   fun re q b hs s1 s2 => evaluateQuery_status re b hs s1 s2 q⟩

/-- Witness for C10: fetching a page whose only response is a 404 still
yields a context with status marker 200. -/
theorem successful_fetch_status_always_200_witness :
    (⟨"nope", [], 200⟩ : DetectionContext).statusCode = 200 ∧
    makeRequest scriptDo "http://a.test/p" none script6b
      = (.ok ⟨"nope", [], 200⟩, []) :=
  ⟨(successful_fetch_status_always_200 scriptDo "http://a.test/p" none
      script6b ⟨"nope", [], 200⟩ [] (by decide)).1, by decide⟩



theorem hasResult_append (l t : List (String × Technology)) (n : String) :
    hasResult (l ++ t) n = (hasResult l n || hasResult t n) := by
  simp [hasResult, List.any_append]

theorem getResult_append_of_some (l t : List (String × Technology))
    (n : String) (v : Technology) (h : getResult l n = some v) :
    getResult (l ++ t) n = some v := by
  induction l with
  | nil => simp [getResult] at h
  | cons p rest ih =>
    rcases p with ⟨k, x⟩
    rw [getResult] at h
    rw [List.cons_append, getResult]
    split at h
    · rename_i hk
      rw [if_pos hk]
      exact h
    · rename_i hk
      rw [if_neg hk]
      exact ih h

theorem addImplied_extend (l : List String) :
    ∀ results : List (String × Technology), ∃ extra,
      addImplied results l = results ++ extra ∧
      ∀ x ∈ extra, x.1 ∈ l ∧ hasResult results x.1 = false := by
  induction l with
  | nil => intro results; exact ⟨[], by simp [addImplied], by simp⟩
  | cons i rest ih =>
    intro results
    rw [addImplied]
    by_cases hi : hasResult results i = true
    · rw [if_pos hi]
      obtain ⟨extra, he, hx⟩ := ih results
      exact ⟨extra, he, fun x hxe => ⟨List.mem_cons_of_mem _ (hx x hxe).1, (hx x hxe).2⟩⟩
    · rw [if_neg hi]
      obtain ⟨extra, he, hx⟩ := ih (results ++ [(i, ⟨i, ""⟩)])
      refine ⟨(i, ⟨i, ""⟩) :: extra, by rw [he, List.append_assoc]; rfl, ?_⟩
      intro x hxe
      rcases List.mem_cons.mp hxe with hx1 | hx2
      · subst hx1
        exact ⟨List.mem_cons_self _ _, by simpa using hi⟩
      · obtain ⟨h1, h2⟩ := hx x hx2
        rw [hasResult_append] at h2
        exact ⟨List.mem_cons_of_mem _ h1, by simpa using (Bool.or_eq_false_iff.mp h2).1⟩

theorem lookupFp_implies_subset (fps : List (String × Fingerprint))
    (t : String) (fp : Fingerprint) (h : lookupFp fps t = some fp) :
    ∀ nm ∈ fp.implies, nm ∈ impliedUniverse fps := by
  induction fps with
  | nil => simp [lookupFp] at h
  | cons p rest ih =>
    rcases p with ⟨k, v⟩
    rw [lookupFp] at h
    intro nm hnm
    have huniv : impliedUniverse ((k, v) :: rest)
        = v.implies ++ impliedUniverse rest := by
      simp [impliedUniverse]
    rw [huniv]
    split at h
    · cases h
      exact List.mem_append_left _ hnm
    · exact List.mem_append_right _ (ih h nm hnm)

theorem onePassAux_extend (fps : List (String × Fingerprint))
    (names : List String) :
    ∀ results : List (String × Technology), ∃ extra,
      onePassAux fps names results = results ++ extra ∧
      ∀ x ∈ extra, x.1 ∈ impliedUniverse fps ∧ hasResult results x.1 = false := by
  induction names with
  | nil => intro results; exact ⟨[], by simp [onePassAux], by simp⟩
  | cons techName rest ih =>
    intro results
    rw [onePassAux]
    rcases hfp : lookupFp fps techName with _ | fp
    · obtain ⟨extra, he, hx⟩ := ih results
      exact ⟨extra, he, hx⟩
    · obtain ⟨mid, hmid, hmidx⟩ := addImplied_extend fp.implies results
      obtain ⟨extra, he, hx⟩ := ih (results ++ mid)
      refine ⟨mid ++ extra, ?_, ?_⟩
      · show onePassAux fps rest (addImplied results fp.implies) = _
        rw [hmid, he, List.append_assoc]
      intro x hxe
      rcases List.mem_append.mp hxe with hx1 | hx2
      · obtain ⟨h1, h2⟩ := hmidx x hx1
        exact ⟨lookupFp_implies_subset fps techName fp hfp x.1 h1, h2⟩
      · obtain ⟨h1, h2⟩ := hx x hx2
        rw [hasResult_append] at h2
        exact ⟨h1, by simpa using (Bool.or_eq_false_iff.mp h2).1⟩

theorem onePass_extend (fps : List (String × Fingerprint))
    (results : List (String × Technology)) : ∃ extra,
      onePass fps results = results ++ extra ∧
      ∀ x ∈ extra, x.1 ∈ impliedUniverse fps ∧ hasResult results x.1 = false :=
  onePassAux_extend fps (results.map Prod.fst) results


theorem onePass_strict_missing (fps : List (String × Fingerprint))
    (results : List (String × Technology))
    (hne : ¬ (onePass fps results).length = results.length) :
    ((impliedUniverse fps).filter
        (fun nm => !(hasResult (onePass fps results) nm))).length <
    ((impliedUniverse fps).filter
        (fun nm => !(hasResult results nm))).length := by
  obtain ⟨extra, he, hx⟩ := onePass_extend fps results
  have hextra : extra ≠ [] := by
    intro h0
    rw [h0, List.append_nil] at he
    exact hne (by rw [he])
  rcases extra with _ | ⟨e, extra'⟩
  · exact absurd rfl hextra
  obtain ⟨heu, hef⟩ := hx e (List.mem_cons_self _ _)
  have hsub : List.Sublist
      ((impliedUniverse fps).filter
        (fun nm => !(hasResult (onePass fps results) nm)))
      ((impliedUniverse fps).filter (fun nm => !(hasResult results nm))) := by
    apply List.monotone_filter_right
    intro nm hnm
    simp only [Bool.not_eq_true'] at hnm ⊢
    rw [he, hasResult_append] at hnm
    exact (Bool.or_eq_false_iff.mp hnm).1
  have hmem : e.1 ∈ (impliedUniverse fps).filter
      (fun nm => !(hasResult results nm)) := by
    rw [List.mem_filter]
    exact ⟨heu, by simp [hef]⟩
  have hnotmem : e.1 ∉ (impliedUniverse fps).filter
      (fun nm => !(hasResult (onePass fps results) nm)) := by
    rw [List.mem_filter]
    rintro ⟨-, hcontra⟩
    rw [he, hasResult_append] at hcontra
    simp [hasResult] at hcontra
  refine Nat.lt_of_le_of_ne hsub.length_le (fun hlen => ?_)
  have := hsub.eq_of_length hlen
  rw [this] at hnotmem
  exact hnotmem hmem

theorem closureAux_fix (fps : List (String × Fingerprint)) :
    ∀ (fuel : Nat) (results : List (String × Technology)),
    ((impliedUniverse fps).filter (fun nm => !(hasResult results nm))).length < fuel →
    (onePass fps (closureAux fps fuel results)).length
      = (closureAux fps fuel results).length := by
  intro fuel
  induction fuel with
  | zero => intro results h; exact absurd h (Nat.not_lt_zero _)
  | succ fuel ih =>
    intro results h
    by_cases heq : (onePass fps results).length = results.length
    · have hstop : closureAux fps (fuel + 1) results = results := by
        rw [closureAux]
        simp [heq]
      rw [hstop, heq]
    · have hgo : closureAux fps (fuel + 1) results
          = closureAux fps fuel (onePass fps results) := by
        rw [closureAux]
        simp [heq]
      rw [hgo]
      exact ih (onePass fps results)
        (Nat.lt_of_lt_of_le (onePass_strict_missing fps results heq)
          (Nat.lt_succ_iff.mp h))

theorem closureAux_extend (fps : List (String × Fingerprint)) :
    ∀ (fuel : Nat) (results : List (String × Technology)), ∃ tail,
      closureAux fps fuel results = results ++ tail := by
  intro fuel
  induction fuel with
  | zero => intro results; exact ⟨[], by simp [closureAux]⟩
  | succ fuel ih =>
    intro results
    by_cases heq : (onePass fps results).length = results.length
    · refine ⟨[], ?_⟩
      rw [closureAux]
      simp [heq]
    · obtain ⟨mid, hmid, -⟩ := onePass_extend fps results
      obtain ⟨tail, htail⟩ := ih (onePass fps results)
      refine ⟨mid ++ tail, ?_⟩
      rw [closureAux]
      simp only [heq, if_neg]
      rw [htail, hmid, List.append_assoc]
      simp [heq]


/-- C8: the implication closure is idempotent — applying it twice returns
exactly the result of applying it once — and it never removes or
overwrites an existing entry (every original name still maps to its
original technology record). -/
theorem implied_closure_idempotent (fps : List (String × Fingerprint))
    (results : List (String × Technology)) :
    addImpliedTechnologies fps (addImpliedTechnologies fps results)
      = addImpliedTechnologies fps results ∧
    ∀ name tech, getResult results name = some tech →
      getResult (addImpliedTechnologies fps results) name = some tech := by
  constructor
  · have hfix := closureAux_fix fps ((impliedUniverse fps).length + 1) results
      (Nat.lt_succ_of_le (List.length_filter_le _ _))
    rw [addImpliedTechnologies, addImpliedTechnologies, closureAux]
    simp [hfix]
  · intro name tech h
    obtain ⟨tail, htail⟩ :=
      closureAux_extend fps ((impliedUniverse fps).length + 1) results
    rw [addImpliedTechnologies, htail]
    exact getResult_append_of_some _ _ _ _ h

/-- Witness for C8: on the store A→{B,C}, B→{C,D}, D→{A} with A initially
detected, the closure is a fixed point of a second closure application and
keeps A's original version. -/
theorem implied_closure_idempotent_witness :
    addImpliedTechnologies fps8 (addImpliedTechnologies fps8 r8)
      = addImpliedTechnologies fps8 r8 ∧
    getResult (addImpliedTechnologies fps8 r8) "A" = some ⟨"A", "1.0"⟩ :=
  ⟨(implied_closure_idempotent fps8 r8).1,
   (implied_closure_idempotent fps8 r8).2 "A" ⟨"A", "1.0"⟩ (by decide)⟩


theorem lookupFold_eq_empty (hs : List (String × String)) (name : String)
    (h : hasFoldKey hs name = false) : lookupFold hs name = "" := by
  induction hs with
  | nil => rfl
  | cons p rest ih =>
    rcases p with ⟨k, v⟩
    simp only [hasFoldKey, List.any_cons, Bool.or_eq_false_iff] at h
    rw [lookupFold, if_neg (by simp [h.1])]
    exact ih (by simp [hasFoldKey, h.2])

theorem lookupFold_append (l1 l2 : List (String × String)) (name : String) :
    lookupFold (l1 ++ l2) name
      = if hasFoldKey l1 name then lookupFold l1 name else lookupFold l2 name := by
  induction l1 with
  | nil => simp [hasFoldKey, lookupFold]
  | cons p rest ih =>
    rcases p with ⟨k, v⟩
    by_cases hk : eqFold k name = true
    · simp [lookupFold, hasFoldKey, hk]
    · have hstep : lookupFold (((k, v) :: rest) ++ l2) name
          = lookupFold (rest ++ l2) name := by
        rw [List.cons_append, lookupFold, if_neg hk]
      rw [hstep, ih]
      have hkf : eqFold k name = false := by simpa using hk
      simp only [hasFoldKey, List.any_cons, hkf, Bool.false_or]
      rw [show lookupFold ((k, v) :: rest) name = lookupFold rest name from by
        rw [lookupFold, if_neg hk]]

theorem hasFoldKey_append (l1 l2 : List (String × String)) (name : String) :
    hasFoldKey (l1 ++ l2) name = (hasFoldKey l1 name || hasFoldKey l2 name) := by
  simp [hasFoldKey, List.any_append]

theorem hasKey_fold_of_eqFold (acc : List (String × String)) (k name : String)
    (hk : hasKey acc k = true) (he : eqFold k name = true) :
    hasFoldKey acc name = true := by
  simp only [hasKey, List.any_eq_true] at hk
  obtain ⟨p, hp, hpk⟩ := hk
  simp only [hasFoldKey, List.any_eq_true]
  refine ⟨p, hp, ?_⟩
  rw [show p.1 = k from by simpa using hpk]
  exact he

theorem accumHeaders_hasFoldKey (hs : List (String × String)) :
    ∀ acc name, hasFoldKey (accumHeaders acc hs) name
      = (hasFoldKey acc name || hasFoldKey hs name) := by
  induction hs with
  | nil => intro acc name; simp [accumHeaders, hasFoldKey]
  | cons p rest ih =>
    intro acc name
    rcases p with ⟨k, v⟩
    rw [accumHeaders]
    by_cases hk : hasKey acc k = true
    · rw [if_pos hk, ih]
      by_cases he : eqFold k name = true
      · rw [hasKey_fold_of_eqFold acc k name hk he]
        simp [hasFoldKey, he]
      · simp [hasFoldKey, he]
    · rw [if_neg hk, ih, hasFoldKey_append]
      simp [hasFoldKey, Bool.or_assoc]

theorem accumHeaders_lookupFold (hs : List (String × String)) :
    ∀ acc name, lookupFold (accumHeaders acc hs) name
      = if hasFoldKey acc name then lookupFold acc name else lookupFold hs name := by
  induction hs with
  | nil =>
    intro acc name
    rw [accumHeaders]
    by_cases h : hasFoldKey acc name = true
    · rw [if_pos h]
    · rw [if_neg (by simpa using h), lookupFold_eq_empty acc name (by simpa using h)]
      rfl
  | cons p rest ih =>
    intro acc name
    rcases p with ⟨k, v⟩
    rw [accumHeaders]
    by_cases hk : hasKey acc k = true
    · rw [if_pos hk, ih]
      by_cases hacc : hasFoldKey acc name = true
      · simp [hacc]
      · have hke : eqFold k name = false := by
          by_contra hcon
          exact absurd (hasKey_fold_of_eqFold acc k name hk
            (by simpa using hcon)) (by simpa using hacc)
        simp [hacc, lookupFold, hke]
    · rw [if_neg hk, ih, hasFoldKey_append, lookupFold_append]
      by_cases hacc : hasFoldKey acc name = true
      · simp [hacc]
      · have haccf : (acc.any fun p => eqFold p.1 name) = false := by
          simpa [hasFoldKey] using hacc
        by_cases hke : eqFold k name = true
        · simp [haccf, hke, hasFoldKey, lookupFold]
        · have hkef : eqFold k name = false := by simpa using hke
          simp [haccf, hkef, hasFoldKey, lookupFold]


theorem makeRequestAux_redirect_step {σ : Type} (doReq : DoReq σ)
    (cfg : Option RequestConfig) (url url2 : String) (u u2 : URLParts)
    (r : HttpResponse) (n : Nat) (bodies : List String)
    (hdrs : List (String × String)) (w w2 : σ)
    (h : doReq w (mkGoReq url cfg) = (.ok r, w2))
    (hs3 : 300 ≤ r.statusCode ∧ r.statusCode < 400)
    (hloc : ¬ lookupFold r.headers "Location" = "")
    (hres : resolveURL url (lookupFold r.headers "Location") = .ok url2)
    (hp : parseURL url = .ok u) (hp2 : parseURL url2 = .ok u2)
    (hsd : isSameDomain u u2 = true) :
    makeRequestAux doReq cfg url (n + 1) bodies hdrs w
      = makeRequestAux doReq cfg url2 n
          (if r.body ≠ "" then bodies ++ [r.body] else bodies)
          (accumHeaders hdrs r.headers) w2 := by
  rw [makeRequestAux, h]
  simp only [hs3, and_self, if_true, ite_true, hloc, ite_false, if_false, hp,
    hres, hp2, hsd, not_false_iff, eq_self_iff_true]

theorem makeRequestAux_final_step {σ : Type} (doReq : DoReq σ)
    (cfg : Option RequestConfig) (url : String) (r : HttpResponse) (n : Nat)
    (bodies : List String) (hdrs : List (String × String)) (w w2 : σ)
    (h : doReq w (mkGoReq url cfg) = (.ok r, w2))
    (hns : ¬ (300 ≤ r.statusCode ∧ r.statusCode < 400)) :
    makeRequestAux doReq cfg url n bodies hdrs w
      = (.ok ⟨joinWith "\n" (if r.body ≠ "" then bodies ++ [r.body] else bodies),
          accumHeaders hdrs r.headers, 200⟩, w2) := by
  cases n <;>
    (rw [makeRequestAux, h]
     simp only [hns, ite_false, if_false, finishRequest, if_neg, not_false_iff])

theorem accum_three_firstHop (h0 h1 h2 : List (String × String))
    (name : String) :
    lookupFold (accumHeaders (accumHeaders (accumHeaders [] h0) h1) h2) name
      = firstHopHeader [h0, h1, h2] name := by
  rw [accumHeaders_lookupFold, accumHeaders_lookupFold, accumHeaders_lookupFold]
  rw [accumHeaders_hasFoldKey, accumHeaders_hasFoldKey]
  simp only [firstHopHeader, hasFoldKey, List.any_nil, Bool.false_or]
  by_cases a0 : (h0.any fun p => eqFold p.1 name) = true
  · simp [a0]
  · have a0f : (h0.any fun p => eqFold p.1 name) = false := by simpa using a0
    by_cases a1 : (h1.any fun p => eqFold p.1 name) = true
    · simp [a0f, a1]
    · have a1f : (h1.any fun p => eqFold p.1 name) = false := by simpa using a1
      by_cases a2 : (h2.any fun p => eqFold p.1 name) = true
      · simp [a0f, a1f, a2]
      · have a2f : (h2.any fun p => eqFold p.1 name) = false := by simpa using a2
        have hl2 : lookupFold h2 name = "" :=
          lookupFold_eq_empty h2 name (by simpa [hasFoldKey] using a2)
        simp [a0f, a1f, a2f, hl2]


/-- C5 (amended): a same-host two-hop redirect chain yields a context whose
body is the newline-join of every hop's non-empty response body in
traversal order (empty hop bodies are skipped), and whose headers answer
every case-insensitive lookup with the value from the earliest hop carrying
that header name, later duplicates being ignored. -/
theorem redirect_chain_accumulation {σ : Type} (doReq : DoReq σ)
    (cfg : Option RequestConfig) (url0 url1 url2 : String)
    (u0 u1 u2 : URLParts) (r0 r1 r2 : HttpResponse) (w0 w1 w2 w3 : σ)
    (h0 : doReq w0 (mkGoReq url0 cfg) = (.ok r0, w1))
    (h0s : 300 ≤ r0.statusCode ∧ r0.statusCode < 400)
    (h0loc : ¬ lookupFold r0.headers "Location" = "")
    (h0res : resolveURL url0 (lookupFold r0.headers "Location") = .ok url1)
    (h0p : parseURL url0 = .ok u0) (h1p : parseURL url1 = .ok u1)
    (h0sd : isSameDomain u0 u1 = true)
    (h1 : doReq w1 (mkGoReq url1 cfg) = (.ok r1, w2))
    (h1s : 300 ≤ r1.statusCode ∧ r1.statusCode < 400)
    (h1loc : ¬ lookupFold r1.headers "Location" = "")
    (h1res : resolveURL url1 (lookupFold r1.headers "Location") = .ok url2)
    (h2p : parseURL url2 = .ok u2)
    (h1sd : isSameDomain u1 u2 = true)
    (h2 : doReq w2 (mkGoReq url2 cfg) = (.ok r2, w3))
    (h2s : ¬ (300 ≤ r2.statusCode ∧ r2.statusCode < 400)) :
    ∃ hs, makeRequest doReq url0 cfg w0
        = (.ok ⟨joinWith "\n"
              (([r0.body, r1.body, r2.body]).filter (fun b => b != "")),
            hs, 200⟩, w3) ∧
      ∀ name, lookupFold hs name
        = firstHopHeader [r0.headers, r1.headers, r2.headers] name := by
  refine ⟨accumHeaders (accumHeaders (accumHeaders [] r0.headers) r1.headers)
    r2.headers, ?_, fun name => accum_three_firstHop _ _ _ name⟩
  have e1 : makeRequestAux doReq cfg url0 3 [] [] w0
      = makeRequestAux doReq cfg url1 2
          (if r0.body ≠ "" then ([] : List String) ++ [r0.body] else [])
          (accumHeaders [] r0.headers) w1 :=
    makeRequestAux_redirect_step doReq cfg url0 url1 u0 u1 r0 2 [] [] w0 w1
      h0 h0s h0loc h0res h0p h1p h0sd
  have e2 : makeRequestAux doReq cfg url1 2
        (if r0.body ≠ "" then ([] : List String) ++ [r0.body] else [])
        (accumHeaders [] r0.headers) w1
      = makeRequestAux doReq cfg url2 1
          (if r1.body ≠ "" then
            (if r0.body ≠ "" then ([] : List String) ++ [r0.body] else [])
              ++ [r1.body]
          else (if r0.body ≠ "" then ([] : List String) ++ [r0.body] else []))
          (accumHeaders (accumHeaders [] r0.headers) r1.headers) w2 :=
    makeRequestAux_redirect_step doReq cfg url1 url2 u1 u2 r1 1 _ _ w1 w2
      h1 h1s h1loc h1res h1p h2p h1sd
  have e3 := makeRequestAux_final_step doReq cfg url2 r2 1
    (if r1.body ≠ "" then
      (if r0.body ≠ "" then ([] : List String) ++ [r0.body] else [])
        ++ [r1.body]
    else (if r0.body ≠ "" then ([] : List String) ++ [r0.body] else []))
    (accumHeaders (accumHeaders [] r0.headers) r1.headers) w2 w3 h2 h2s
  have hbody : (if r2.body ≠ "" then
        (if r1.body ≠ "" then
          (if r0.body ≠ "" then ([] : List String) ++ [r0.body] else [])
            ++ [r1.body]
        else (if r0.body ≠ "" then ([] : List String) ++ [r0.body] else []))
          ++ [r2.body]
      else (if r1.body ≠ "" then
          (if r0.body ≠ "" then ([] : List String) ++ [r0.body] else [])
            ++ [r1.body]
        else (if r0.body ≠ "" then ([] : List String) ++ [r0.body] else [])))
      = ([r0.body, r1.body, r2.body]).filter (fun b => b != "") := by
    have cb : ∀ b : String, ¬ b = "" → (b == "") = false :=
      fun b h => beq_eq_false_iff_ne.mpr h
    by_cases c0 : r0.body = "" <;> by_cases c1 : r1.body = "" <;>
      by_cases c2 : r2.body = "" <;>
        simp [c0, c1, c2, List.filter, bne, cb, beq_iff_eq]
  show makeRequestAux doReq cfg url0 3 [] [] w0 = _
  rw [e1, e2, e3, hbody]

/-- Witness for C5: a concrete 301→302→200 chain on one host, with bodies
b0, b1, b2 and a `Server` header on every hop; the context body is the
newline-join and `Server` answers with the first hop's value. -/
theorem redirect_chain_accumulation_witness :
    ∃ hs, makeRequest scriptDo "http://a.test/one" none script5w
        = (.ok ⟨joinWith "\n"
              ((["b0", "b1", "b2"]).filter (fun b => b != "")),
            hs, 200⟩, []) ∧
      ∀ name, lookupFold hs name
        = firstHopHeader
            [[("Location", "/two"), ("Server", "s0")],
             [("Location", "/three"), ("Server", "s1"), ("X-P", "p")],
             [("Server", "s2")]] name :=
  redirect_chain_accumulation scriptDo none
    "http://a.test/one" "http://a.test/two" "http://a.test/three"
    ⟨"http", "a.test", "80"⟩ ⟨"http", "a.test", "80"⟩ ⟨"http", "a.test", "80"⟩
    ⟨301, [("Location", "/two"), ("Server", "s0")], "b0"⟩
    ⟨302, [("Location", "/three"), ("Server", "s1"), ("X-P", "p")], "b1"⟩
    ⟨200, [("Server", "s2")], "b2"⟩
    script5w (script5w.drop 1) (script5w.drop 2) []
    (by decide) (by decide) (by decide) (by decide) (by decide) (by decide)
    (by decide) (by decide) (by decide) (by decide) (by decide) (by decide)
    (by decide) (by decide) (by decide)


theorem addProbeToTechs_path_ok (techs : List (String × List PathProbe))
    (t : String) (p : PathProbe) (pi : String)
    (h : ∀ tp ∈ techs, ∀ q ∈ tp.2, q.path = pi) (hp : p.path = pi) :
    ∀ tp ∈ addProbeToTechs techs t p, ∀ q ∈ tp.2, q.path = pi := by
  induction techs with
  | nil =>
    intro tp htp q hq
    rw [addProbeToTechs] at htp
    rcases List.mem_singleton.mp htp with rfl
    rcases List.mem_singleton.mp hq with rfl
    exact hp
  | cons e rest ih =>
    rcases e with ⟨t2, ps⟩
    intro tp htp q hq
    rw [addProbeToTechs] at htp
    split at htp
    · rcases List.mem_cons.mp htp with rfl | hmem
      · rcases List.mem_append.mp hq with hq1 | hq2
        · exact h (t2, ps) (List.mem_cons_self _ _) q hq1
        · rcases List.mem_singleton.mp hq2 with rfl
          exact hp
      · exact h tp (List.mem_cons_of_mem _ hmem) q hq
    · rcases List.mem_cons.mp htp with rfl | hmem
      · exact h (t2, ps) (List.mem_cons_self _ _) q hq
      · exact ih (fun tp2 htp2 => h tp2 (List.mem_cons_of_mem _ htp2)) tp hmem q hq

theorem addProbeToTechs_present (techs : List (String × List PathProbe))
    (t : String) (p : PathProbe) :
    ∃ tp ∈ addProbeToTechs techs t p, tp.1 = t ∧ p ∈ tp.2 := by
  induction techs with
  | nil =>
    exact ⟨(t, [p]), List.mem_singleton.mpr rfl, rfl, List.mem_singleton.mpr rfl⟩
  | cons e rest ih =>
    rcases e with ⟨t2, ps⟩
    rw [addProbeToTechs]
    split
    · rename_i ht
      exact ⟨(t2, ps ++ [p]), List.mem_cons_self _ _, ht,
        List.mem_append_right _ (List.mem_singleton.mpr rfl)⟩
    · obtain ⟨tp, htp, h1, h2⟩ := ih
      exact ⟨tp, List.mem_cons_of_mem _ htp, h1, h2⟩

theorem addProbeToTechs_preserves (techs : List (String × List PathProbe))
    (t : String) (p : PathProbe) (t2 : String) (p2 : PathProbe)
    (h : ∃ tp ∈ techs, tp.1 = t2 ∧ p2 ∈ tp.2) :
    ∃ tp ∈ addProbeToTechs techs t p, tp.1 = t2 ∧ p2 ∈ tp.2 := by
  induction techs with
  | nil => simp at h
  | cons e rest ih =>
    rcases e with ⟨t3, ps⟩
    obtain ⟨tp, htp, h1, h2⟩ := h
    rw [addProbeToTechs]
    split
    · rcases List.mem_cons.mp htp with rfl | hmem
      · exact ⟨(t3, ps ++ [p]), List.mem_cons_self _ _, h1,
          List.mem_append_left _ h2⟩
      · exact ⟨tp, List.mem_cons_of_mem _ hmem, h1, h2⟩
    · rcases List.mem_cons.mp htp with rfl | hmem
      · exact ⟨(t3, ps), List.mem_cons_self _ _, h1, h2⟩
      · obtain ⟨tp2, htp2, g1, g2⟩ := ih ⟨tp, hmem, h1, h2⟩
        exact ⟨tp2, List.mem_cons_of_mem _ htp2, g1, g2⟩


theorem classifyInsert_paths_mem (pm : List PathClassification) (t : String)
    (p : PathProbe) :
    ∀ x ∈ (classifyInsert pm t p).map (fun pc => pc.path),
      x ∈ pm.map (fun pc => pc.path) ∨ x = p.path := by
  induction pm with
  | nil =>
    intro x hx
    rw [classifyInsert, List.map_cons, List.map_nil] at hx
    rcases List.mem_cons.mp hx with h1 | h2
    · exact Or.inr h1
    · exact absurd h2 (List.not_mem_nil x)
  | cons pc rest ih =>
    intro x hx
    rw [classifyInsert] at hx
    split at hx
    · rw [List.map_cons] at hx
      rcases List.mem_cons.mp hx with h1 | h2
      · exact Or.inl (by rw [List.map_cons, h1]; exact List.mem_cons_self _ _)
      · exact Or.inl (by rw [List.map_cons]; exact List.mem_cons_of_mem _ h2)
    · rw [List.map_cons] at hx
      rcases List.mem_cons.mp hx with h1 | h2
      · exact Or.inl (by rw [List.map_cons, h1]; exact List.mem_cons_self _ _)
      · rcases ih x h2 with h3 | h4
        · exact Or.inl (by rw [List.map_cons]; exact List.mem_cons_of_mem _ h3)
        · exact Or.inr h4

theorem classifyInsert_paths_nodup (pm : List PathClassification) (t : String)
    (p : PathProbe) (h : (pm.map (fun pc => pc.path)).Nodup) :
    ((classifyInsert pm t p).map (fun pc => pc.path)).Nodup := by
  induction pm with
  | nil => simp [classifyInsert]
  | cons pc rest ih =>
    rw [classifyInsert]
    split
    · simpa using h
    · rename_i hne
      simp only [List.map_cons, List.nodup_cons] at h ⊢
      refine ⟨fun hcon => ?_, ih h.2⟩
      rcases classifyInsert_paths_mem rest t p pc.path hcon with h1 | h2
      · exact h.1 h1
      · exact hne (by rw [h2])

theorem classifyInsert_groups_ok (pm : List PathClassification) (t : String)
    (p : PathProbe)
    (h : ∀ pc ∈ pm, ∀ tp ∈ pc.technologies, ∀ q ∈ tp.2, q.path = pc.path) :
    ∀ pc ∈ classifyInsert pm t p, ∀ tp ∈ pc.technologies, ∀ q ∈ tp.2,
      q.path = pc.path := by
  induction pm with
  | nil =>
    intro pc hpc tp htp q hq
    rw [classifyInsert] at hpc
    rcases List.mem_singleton.mp hpc with rfl
    rcases List.mem_singleton.mp htp with rfl
    rcases List.mem_singleton.mp hq with rfl
    rfl
  | cons pc0 rest ih =>
    intro pc hpc tp htp q hq
    rw [classifyInsert] at hpc
    split at hpc
    · rename_i heq
      rcases List.mem_cons.mp hpc with rfl | hmem
      · exact addProbeToTechs_path_ok pc0.technologies t p pc0.path
          (h pc0 (List.mem_cons_self _ _)) heq.symm tp htp q hq
      · exact h pc (List.mem_cons_of_mem _ hmem) tp htp q hq
    · rcases List.mem_cons.mp hpc with rfl | hmem
      · exact h pc (List.mem_cons_self _ _) tp htp q hq
      · exact ih (fun pc2 hpc2 => h pc2 (List.mem_cons_of_mem _ hpc2)) pc hmem tp htp q hq

theorem classifyInsert_present (pm : List PathClassification) (t : String)
    (p : PathProbe) :
    ∃ pc ∈ classifyInsert pm t p, pc.path = p.path ∧
      ∃ tp ∈ pc.technologies, tp.1 = t ∧ p ∈ tp.2 := by
  induction pm with
  | nil =>
    refine ⟨⟨p.path, p.request, [(t, [p])]⟩, List.mem_singleton.mpr rfl, rfl, ?_⟩
    exact ⟨(t, [p]), List.mem_singleton.mpr rfl, rfl, List.mem_singleton.mpr rfl⟩
  | cons pc0 rest ih =>
    rw [classifyInsert]
    split
    · rename_i heq
      refine ⟨⟨pc0.path, pc0.requestConf, addProbeToTechs pc0.technologies t p⟩,
        List.mem_cons_self _ _, heq, ?_⟩
      exact addProbeToTechs_present pc0.technologies t p
    · obtain ⟨pc, hpc, h1, h2⟩ := ih
      exact ⟨pc, List.mem_cons_of_mem _ hpc, h1, h2⟩

theorem classifyInsert_preserves (pm : List PathClassification) (t : String)
    (p : PathProbe) (t2 : String) (p2 : PathProbe)
    (h : ∃ pc ∈ pm, pc.path = p2.path ∧
      ∃ tp ∈ pc.technologies, tp.1 = t2 ∧ p2 ∈ tp.2) :
    ∃ pc ∈ classifyInsert pm t p, pc.path = p2.path ∧
      ∃ tp ∈ pc.technologies, tp.1 = t2 ∧ p2 ∈ tp.2 := by
  induction pm with
  | nil => simp at h
  | cons pc0 rest ih =>
    obtain ⟨pc, hpc, h1, h2⟩ := h
    rw [classifyInsert]
    split
    · rename_i heq
      rcases List.mem_cons.mp hpc with rfl | hmem
      · refine ⟨⟨pc.path, pc.requestConf, addProbeToTechs pc.technologies t p⟩,
          List.mem_cons_self _ _, h1, ?_⟩
        exact addProbeToTechs_preserves pc.technologies t p t2 p2 h2
      · exact ⟨pc, List.mem_cons_of_mem _ hmem, h1, h2⟩
    · rcases List.mem_cons.mp hpc with rfl | hmem
      · exact ⟨pc, List.mem_cons_self _ _, h1, h2⟩
      · obtain ⟨pc2, hpc2, g1, g2⟩ := ih ⟨pc, hmem, h1, h2⟩
        exact ⟨pc2, List.mem_cons_of_mem _ hpc2, g1, g2⟩


theorem probesFold_paths_nodup (t : String) (ps : List PathProbe) :
    ∀ pm, (pm.map (fun pc => pc.path)).Nodup →
      ((ps.foldl (fun pm p => classifyInsert pm t p) pm).map
        (fun pc => pc.path)).Nodup := by
  induction ps with
  | nil => intro pm h; simpa using h
  | cons p rest ih =>
    intro pm h
    rw [List.foldl_cons]
    exact ih _ (classifyInsert_paths_nodup pm t p h)

theorem probesFold_groups_ok (t : String) (ps : List PathProbe) :
    ∀ pm, (∀ pc ∈ pm, ∀ tp ∈ pc.technologies, ∀ q ∈ tp.2, q.path = pc.path) →
      ∀ pc ∈ ps.foldl (fun pm p => classifyInsert pm t p) pm,
        ∀ tp ∈ pc.technologies, ∀ q ∈ tp.2, q.path = pc.path := by
  induction ps with
  | nil => intro pm h; simpa using h
  | cons p rest ih =>
    intro pm h
    rw [List.foldl_cons]
    exact ih _ (classifyInsert_groups_ok pm t p h)

theorem probesFold_preserves (t : String) (ps : List PathProbe) :
    ∀ pm t2 p2,
      (∃ pc ∈ pm, pc.path = p2.path ∧
        ∃ tp ∈ pc.technologies, tp.1 = t2 ∧ p2 ∈ tp.2) →
      ∃ pc ∈ ps.foldl (fun pm p => classifyInsert pm t p) pm,
        pc.path = p2.path ∧ ∃ tp ∈ pc.technologies, tp.1 = t2 ∧ p2 ∈ tp.2 := by
  induction ps with
  | nil => intro pm t2 p2 h; simpa using h
  | cons p0 rest ih =>
    intro pm t2 p2 h
    rw [List.foldl_cons]
    exact ih _ t2 p2 (classifyInsert_preserves pm t p0 t2 p2 h)

theorem probesFold_present (t : String) (ps : List PathProbe) :
    ∀ pm, ∀ p ∈ ps,
      ∃ pc ∈ ps.foldl (fun pm p => classifyInsert pm t p) pm,
        pc.path = p.path ∧ ∃ tp ∈ pc.technologies, tp.1 = t ∧ p ∈ tp.2 := by
  induction ps with
  | nil => intro pm p hp; simp at hp
  | cons p0 rest ih =>
    intro pm p hp
    rw [List.foldl_cons]
    rcases List.mem_cons.mp hp with rfl | hmem
    · exact probesFold_preserves t rest _ t p (classifyInsert_present pm t p)
    · exact ih _ p hmem

theorem fpsFold_paths_nodup (fps : List (String × Fingerprint)) :
    ∀ pm, (pm.map (fun pc => pc.path)).Nodup →
      ((fps.foldl (fun (pm : List PathClassification) (tf : String × Fingerprint) =>
          tf.2.paths.foldl (fun pm p => classifyInsert pm tf.1 p) pm) pm).map
        (fun pc => pc.path)).Nodup := by
  induction fps with
  | nil => intro pm h; simpa using h
  | cons tf rest ih =>
    intro pm h
    rw [List.foldl_cons]
    exact ih _ (probesFold_paths_nodup tf.1 tf.2.paths pm h)

theorem fpsFold_groups_ok (fps : List (String × Fingerprint)) :
    ∀ pm, (∀ pc ∈ pm, ∀ tp ∈ pc.technologies, ∀ q ∈ tp.2, q.path = pc.path) →
      ∀ pc ∈ fps.foldl (fun (pm : List PathClassification) (tf : String × Fingerprint) =>
          tf.2.paths.foldl (fun pm p => classifyInsert pm tf.1 p) pm) pm,
        ∀ tp ∈ pc.technologies, ∀ q ∈ tp.2, q.path = pc.path := by
  induction fps with
  | nil => intro pm h; simpa using h
  | cons tf rest ih =>
    intro pm h
    rw [List.foldl_cons]
    exact ih _ (probesFold_groups_ok tf.1 tf.2.paths pm h)

theorem fpsFold_preserves (fps : List (String × Fingerprint)) :
    ∀ pm t2 p2,
      (∃ pc ∈ pm, pc.path = p2.path ∧
        ∃ tp ∈ pc.technologies, tp.1 = t2 ∧ p2 ∈ tp.2) →
      ∃ pc ∈ fps.foldl (fun (pm : List PathClassification) (tf : String × Fingerprint) =>
          tf.2.paths.foldl (fun pm p => classifyInsert pm tf.1 p) pm) pm,
        pc.path = p2.path ∧ ∃ tp ∈ pc.technologies, tp.1 = t2 ∧ p2 ∈ tp.2 := by
  induction fps with
  | nil => intro pm t2 p2 h; simpa using h
  | cons tf rest ih =>
    intro pm t2 p2 h
    rw [List.foldl_cons]
    exact ih _ t2 p2 (probesFold_preserves tf.1 tf.2.paths pm t2 p2 h)

theorem fpsFold_present (fps : List (String × Fingerprint)) :
    ∀ pm, ∀ tf ∈ fps, ∀ p ∈ tf.2.paths,
      ∃ pc ∈ fps.foldl (fun (pm : List PathClassification) (tf : String × Fingerprint) =>
          tf.2.paths.foldl (fun pm p => classifyInsert pm tf.1 p) pm) pm,
        pc.path = p.path ∧ ∃ tp ∈ pc.technologies, tp.1 = tf.1 ∧ p ∈ tp.2 := by
  induction fps with
  | nil => intro pm tf htf; simp at htf
  | cons tf0 rest ih =>
    intro pm tf htf p hp
    rw [List.foldl_cons]
    rcases List.mem_cons.mp htf with rfl | hmem
    · exact fpsFold_preserves rest _ tf.1 p
        (probesFold_present tf.1 tf.2.paths pm p hp)
    · exact ih _ tf hmem p hp

/-- C3 (amended): path classification groups probes across technologies by
the request path alone. The produced groups carry pairwise-distinct paths
(each unique path yields exactly one group, fetched at most once per run no
matter how many technologies share it); every probe recorded in a group has
exactly the group's path; and every probe of the store is recorded in the
group carrying its path — so two probes are placed in the same group if and
only if they share the request path, regardless of request shape (the
group's request configuration is the one of the probe that created the
group). -/
theorem classify_groups_by_path (fps : List (String × Fingerprint)) :
    ((ClassifyByPath fps).map (fun pc => pc.path)).Nodup ∧
    (∀ pc ∈ ClassifyByPath fps, ∀ tp ∈ pc.technologies, ∀ q ∈ tp.2,
      q.path = pc.path) ∧
    (∀ tf ∈ fps, ∀ p ∈ tf.2.paths,
      ∃ pc ∈ ClassifyByPath fps, pc.path = p.path ∧
        ∃ tp ∈ pc.technologies, tp.1 = tf.1 ∧ p ∈ tp.2) :=
  ⟨fpsFold_paths_nodup fps [] (by simp),
   fpsFold_groups_ok fps [] (by simp),
   fun tf htf p hp => fpsFold_present fps [] tf htf p hp⟩

/-- Witness for C3 (amended): in the two-technology store `fps3` the single
produced group has a duplicate-free path list, and probe `probeA` of
technology A is recorded in a group carrying its path. -/
theorem classify_groups_by_path_witness :
    ((ClassifyByPath fps3).map (fun pc => pc.path)).Nodup ∧
    (∃ pc ∈ ClassifyByPath fps3, pc.path = probeA.path ∧
      ∃ tp ∈ pc.technologies, tp.1 = "A" ∧ probeA ∈ tp.2) :=
  ⟨(classify_groups_by_path fps3).1,
   (classify_groups_by_path fps3).2.2 ("A", ⟨[], [], [probeA], []⟩)
     (List.mem_cons_self _ _) probeA (List.mem_cons_self _ _)⟩


theorem heapGet_append (heap : Heap) (l : List Technology) (i : Nat)
    (h : i < heap.length) : heapGet (heap ++ l) i = heapGet heap i := by
  induction heap generalizing i with
  | nil => exact absurd h (by simp)
  | cons a t ih =>
    cases i with
    | zero => rfl
    | succ j => exact ih j (by simpa using h)

theorem heapGet_set_ne (heap : Heap) (r : Nat) (x : Technology) (i : Nat)
    (h : ¬ i = r) : heapGet (heap.set r x) i = heapGet heap i := by
  induction heap generalizing r i with
  | nil => rfl
  | cons a t ih =>
    cases r with
    | zero =>
      cases i with
      | zero => exact absurd rfl h
      | succ j => rfl
    | succ r2 =>
      cases i with
      | zero => rfl
      | succ j => exact ih r2 j (fun hc => h (by rw [hc]))

theorem heapGet_set_self (heap : Heap) (r : Nat) (x : Technology)
    (h : r < heap.length) : heapGet (heap.set r x) r = x := by
  induction heap generalizing r with
  | nil => exact absurd h (by simp)
  | cons a t ih =>
    cases r with
    | zero => rfl
    | succ r2 => exact ih r2 (by simpa using h)

theorem browserFrame_refl (a : RefMap × Heap) : BrowserFrame a a :=
  ⟨⟨[], by simp⟩, le_refl _, fun _ _ => ⟨rfl, Or.inl rfl⟩⟩

theorem browserFrame_trans {a b c : RefMap × Heap} (h1 : BrowserFrame a b)
    (h2 : BrowserFrame b c) : BrowserFrame a c := by
  obtain ⟨⟨e1, he1⟩, hl1, hi1⟩ := h1
  obtain ⟨⟨e2, he2⟩, hl2, hi2⟩ := h2
  refine ⟨⟨e1 ++ e2, by rw [he2, he1, List.append_assoc]⟩,
    le_trans hl1 hl2, ?_⟩
  intro i hi
  obtain ⟨n1, v1⟩ := hi1 i hi
  obtain ⟨n2, v2⟩ := hi2 i (lt_of_lt_of_le hi hl1)
  refine ⟨n2.trans n1, ?_⟩
  rcases v2 with v2 | v2
  · rcases v1 with v1 | v1
    · exact Or.inl (v2.trans v1)
    · exact Or.inr v1
  · rcases v1 with v1 | v1
    · exact Or.inr (v1 ▸ v2)
    · exact Or.inr v1

theorem setVersion_frame (res : RefMap) (heap : Heap) (r : Nat) (v : String)
    (hv : (heapGet heap r).version = "") :
    BrowserFrame (res, heap) (res, heapSetVersion heap r v) := by
  refine ⟨⟨[], by simp⟩, by simp [heapSetVersion], ?_⟩
  intro i hi
  by_cases hir : i = r
  · subst hir
    rw [show heapSetVersion heap i v
        = heap.set i ⟨(heapGet heap i).name, v⟩ from rfl,
      heapGet_set_self heap i _ hi]
    exact ⟨rfl, Or.inr hv⟩
  · rw [show heapSetVersion heap r v
        = heap.set r ⟨(heapGet heap r).name, v⟩ from rfl,
      heapGet_set_ne heap r _ i hir]
    exact ⟨rfl, Or.inl rfl⟩

theorem alloc_frame (res : RefMap) (heap : Heap) (t : String)
    (cell : Technology) :
    BrowserFrame (res, heap) (res ++ [(t, heap.length)], heap ++ [cell]) := by
  refine ⟨⟨[(t, heap.length)], rfl⟩, by simp, ?_⟩
  intro i hi
  rw [heapGet_append heap [cell] i hi]
  exact ⟨rfl, Or.inl rfl⟩

theorem browserProbeLoop_frame (oracle : BrowserOracle) (techName : String) :
    ∀ (probes : List BrowserProbe) (res : RefMap) (heap : Heap),
      BrowserFrame (res, heap)
        (browserProbeLoop oracle techName probes res heap) := by
  intro probes
  induction probes with
  | nil => intro res heap; exact browserFrame_refl _
  | cons probe rest ih =>
    intro res heap
    rw [browserProbeLoop]
    split
    · exact ih res heap
    · dsimp only
      rcases href : getRef res techName with _ | r <;>
        dsimp only <;>
        repeat (first
          | exact alloc_frame res heap techName _
          | exact ih res heap
          | exact browserFrame_refl _
          | (rename_i hcond
             exact setVersion_frame res heap _ _ hcond.2)
          | split)

theorem browserTechLoop_frame (oracle : BrowserOracle) :
    ∀ (techs : List (String × List BrowserProbe)) (res : RefMap) (heap : Heap),
      BrowserFrame (res, heap) (browserTechLoop oracle techs res heap) := by
  intro techs
  induction techs with
  | nil => intro res heap; exact browserFrame_refl _
  | cons e rest ih =>
    rcases e with ⟨tn, ps⟩
    intro res heap
    rw [browserTechLoop]
    exact browserFrame_trans (browserProbeLoop_frame oracle tn ps res heap)
      (ih _ _)

theorem browserClassLoop_frame (oracle : BrowserOracle) (baseURL : String) :
    ∀ (classes : List BrowserPathClassification) (res : RefMap) (heap : Heap),
      BrowserFrame (res, heap)
        (browserClassLoop oracle baseURL classes res heap) := by
  intro classes
  induction classes with
  | nil => intro res heap; exact browserFrame_refl _
  | cons c rest ih =>
    intro res heap
    rw [browserClassLoop]
    split
    · exact ih res heap
    · split
      · exact ih res heap
      · exact browserFrame_trans
          (browserTechLoop_frame oracle c.technologies res heap) (ih _ _)

/-- C4 (amended): the browser stage receives the engine's result map itself
and shallow-copies it: the map it returns extends the engine's map at the
end (entries it adds never enter the engine's own map value), it never
removes or renames an entry reachable from the engine's map, and the only
mutation it applies to a shared entry is upgrading an empty version to a
non-empty one — a mutation that is visible through the engine's original
map; as implemented the stage never reports failure, so the failure
fallback cannot alter results further. -/
theorem detect_browser_frame (oracle : BrowserOracle) (baseURL : String)
    (fps : List (String × Fingerprint)) (httpResults : RefMap) (heap : Heap) :
    BrowserFrame (httpResults, heap)
      (DetectBrowser oracle baseURL fps httpResults heap) := by
  rw [DetectBrowser]
  split
  · exact browserFrame_refl _
  · exact browserClassLoop_frame oracle baseURL _ httpResults heap

/-- Witness for C4 (amended): on the concrete store `fps4`, cell 0 survives
the stage with its name intact, and the returned map extends the original
one. -/
theorem detect_browser_frame_witness :
    (heapGet (DetectBrowser oracle4 "http://t.example" fps4
      httpResults4 heap4).2 0).name = "T" := by
  have h := (detect_browser_frame oracle4 "http://t.example" fps4
    httpResults4 heap4).2.2 0 (by decide)
  exact h.1.trans (by decide)

/-- C4 counterexample: the stage operates on entries shared with the map it
was handed — after running a version-extraction probe, the `T` entry read
through the engine's ORIGINAL result map shows version "1.0", though before
the stage it showed "": the stage did not receive (and mutate only) a
duplicate, so even when the orchestrator falls back to `httpResults`, the
entry has been altered by the stage. -/
theorem browser_stage_mutates_original_map :
    viewTech httpResults4 heap4 "T" = some ⟨"T", ""⟩ ∧
    viewTech httpResults4
      (DetectBrowser oracle4 "http://t.example" fps4 httpResults4 heap4).2 "T"
      = some ⟨"T", "1.0"⟩ := by
  exact ⟨by decide, by decide⟩


end TechDetect
